import Mathlib

/-! gsdownload: a shallow embedding of the download pipeline

The development follows the Go sources under `cmd/`:

* `cmd/command.go`: `runner.configure`, `runner.getObjects`,
  `runner.getPathForObject`, `runner.printObject`, `runner.downloadObject`
  and the goroutine structure of `runner.run`;
* `cmd/storage/mock_client.go`, `cmd/storage/google_client.go`: `VisitObjects`;
* `cmd/file/os_copier.go`: `OsCopier.CopyToFile`.

Go strings are modelled by Lean strings and are inspected through their
character lists (`String.data`); the separators the code looks at (`/`, `.`)
are ASCII, so reading a string by characters or by bytes finds them at the
same places. Go `int` and `int64` values are modelled by `Int`: the code does
no arithmetic on them beyond comparisons and `len`.
-/

namespace GsDownload

/-! ## Go library functions used by the code -/

/-- Go `strings.HasSuffix`: `len(s) >= len(suffix) && s[len(s)-len(suffix):] == suffix`. -/
def hasSuffix (s suffix : String) : Bool :=
  decide (suffix.length ≤ s.length) &&
    (s.data.drop (s.length - suffix.length) == suffix.data)

/-- Go `strings.HasPrefix`: `len(s) >= len(prefix) && s[:len(prefix)] == prefix`. -/
def hasPrefix (s pre : String) : Bool :=
  decide (pre.length ≤ s.length) && (s.data.take pre.length == pre.data)

/-- Go `strings.TrimPrefix`: `s[len(prefix):]` when `s` has the prefix, else `s`. -/
def trimPrefix (s pre : String) : String :=
  if hasPrefix s pre then String.mk (s.data.drop pre.length) else s

/-- The backtracking loop of `filepath.Clean` for a `..` element, after the
first `out.w--`: `for out.w > dotdot && !os.IsPathSeparator(out.index(out.w)) { out.w-- }`.
The result is the new write index. -/
def cleanBacktrack (out : List Char) (dotdot : Nat) : Nat → Nat → Nat
  | 0, w => w
  | fuel + 1, w =>
    if w > dotdot ∧ out.getD w '/' ≠ '/' then cleanBacktrack out dotdot fuel (w - 1) else w

/-- The main loop of `filepath.Clean` (Unix): `path` is the part of the input
still to read (from index `r` on), `out` the buffer written so far (its
length is `out.w`), `dotdot` the index where `..` must stop. One unit of fuel
is one iteration of `for r < n`; every iteration reads at least one
character. -/
def cleanLoop (rooted : Bool) : Nat → List Char → List Char → Nat → List Char
  | 0, _, out, _ => out
  | fuel + 1, path, out, dotdot =>
    match path with
    | [] => out
    | c :: rest =>
      if c = '/' then
        -- empty path element
        cleanLoop rooted fuel rest out dotdot
      else if c = '.' ∧ (rest = [] ∨ rest.head? = some '/') then
        -- . element
        cleanLoop rooted fuel rest out dotdot
      else if c = '.' ∧ rest.head? = some '.' ∧
          (rest.tail = [] ∨ rest.tail.head? = some '/') then
        -- .. element: remove to last separator
        if out.length > dotdot then
          let w := cleanBacktrack out dotdot out.length (out.length - 1)
          cleanLoop rooted fuel rest.tail (out.take w) dotdot
        else if !rooted then
          let out1 := if out.length > 0 then out ++ ['/'] else out
          let out2 := out1 ++ ['.', '.']
          cleanLoop rooted fuel rest.tail out2 out2.length
        else
          cleanLoop rooted fuel rest.tail out dotdot
      else
        -- real path element: add slash if needed, then copy the element
        let out1 :=
          if (rooted && out.length != 1) || (!rooted && out.length != 0) then out ++ ['/']
          else out
        cleanLoop rooted fuel (path.dropWhile (fun x => x != '/'))
          (out1 ++ path.takeWhile (fun x => x != '/')) dotdot

/-- Go `filepath.Clean` on Unix (no volume names, separator `/`). -/
def filepathClean (path : String) : String :=
  if path = "" then "."
  else
    let rooted := path.data.head? = some '/'
    let out :=
      if rooted then cleanLoop true path.length path.data.tail ['/'] 1
      else cleanLoop false path.length path.data [] 0
    if out.length = 0 then "." else String.mk out

/-- Go `filepath.Join` on Unix: the elements from the first non-empty one on,
joined by `/` and cleaned; the empty string when every element is empty. -/
def filepathJoin : List String → String
  | [] => ""
  | e :: rest =>
    if e ≠ "" then filepathClean ("/".intercalate (e :: rest)) else filepathJoin rest

/-- Go `filepath.Dir` on Unix: everything up to and including the last
separator, cleaned. -/
def filepathDir (path : String) : String :=
  filepathClean (String.mk (path.data.reverse.dropWhile (fun x => x != '/')).reverse)

/-! ## Data model -/

/-- The record `storage.ObjectInfo`. -/
structure ObjectInfo where
  Name : String
  Size : Int
deriving DecidableEq, Repr

/-- The record `runner` of `cmd/command.go`; the field `prefix_` is the
source field `prefix`. -/
structure runner where
  bucketName : String
  prefix_ : String
  outputDirectory : String
  dryRun : Bool
  notFoundIsError : Bool
  maxConcurrent : Int
  maxObjects : Int
  verbose : Bool
  version : Bool
deriving DecidableEq, Repr

/-- Go errors are modelled by their message; `none` is `nil`. -/
abbrev GoError := Option String

/-! ## `runner.configure` -/

/-- The validator `cobra.ExactArgs(n)`: an error unless exactly `n`
arguments were given. -/
def exactArgs (n : Nat) (args : List String) : GoError :=
  if args.length ≠ n then
    some ("accepts " ++ toString n ++ " arg(s), received " ++ toString args.length)
  else none

/-- The prefix normalisation at the end of `configure` (lines 88-94). -/
def normalizePrefix (p : String) : String :=
  let p1 := if !hasSuffix p "/" then p ++ "/" else p
  let p2 := if p1 = "/" then "" else p1
  trimPrefix p2 "/"

/-- The method `runner.configure`: the updated runner and the returned error. The
three positional fields are assigned before the caps are checked, as in
the source. -/
def configure (r : runner) (args : List String) : runner × GoError :=
  match exactArgs 3 args with
  | some err => (r, some err)
  | none =>
    let r1 := { r with
      bucketName := args.getD 0 "",
      prefix_ := args.getD 1 "",
      outputDirectory := args.getD 2 "" }
    if r1.maxConcurrent < 0 then
      (r1, some "--max-concurrent must be greater than or equal to zero")
    else if r1.maxObjects < 0 then
      (r1, some "--max-objects must be greater than or equal to zero")
    else
      ({ r1 with prefix_ := normalizePrefix r1.prefix_ }, none)

/-- The prefix normalisation in the words of the specification, on the
characters of the argument: append `/` if it does not end in `/`, replace
a result that is exactly `/` by the empty string, strip a single leading
`/`. -/
def normalizeSpec (p : String) : String :=
  let a := if p.data.getLast? = some '/' then p.data else p.data ++ ['/']
  let b := if a = ['/'] then [] else a
  String.mk (match b with
    | '/' :: t => t
    | _ => b)

/-! ## `VisitObjects` and `runner.getObjects` -/

/-- What a store walk delivers: the descriptors it yields, in order, and the
error (if any) with which the iteration itself ends after them.
`MockClient` always has `fail = none`; `GoogleClient` may fail in
`SetAttrSelection` (nothing yielded) or in `objectIterator.Next`. -/
structure Walk where
  items : List ObjectInfo
  fail : GoError

/-- The loop of `VisitObjects`, threading the visitor's captured state:
the visitor is called on each yielded descriptor and the first error it
returns ends the walk with that error. -/
def visitLoop {σ : Type} (visit : σ → ObjectInfo → σ × GoError) :
    List ObjectInfo → GoError → σ → σ × GoError
  | [], fail, s => (s, fail)
  | o :: rest, fail, s =>
    match visit s o with
    | (s1, some err) => (s1, some err)
    | (s1, none) => visitLoop visit rest fail s1

/-- The method `Client.VisitObjects` on a given walk. -/
def visitObjects {σ : Type} (w : Walk) (visit : σ → ObjectInfo → σ × GoError)
    (s : σ) : σ × GoError :=
  visitLoop visit w.items w.fail s

/-- The closure passed by `getObjects` (lines 161-171); the captured slice
`objects` is the state. -/
def getObjectsVisit (maxObjects : Int) (objects : List ObjectInfo)
    (objectInfo : ObjectInfo) : List ObjectInfo × GoError :=
  if hasSuffix objectInfo.Name "/" then
    (objects, none)
  else
    let objects1 := objects ++ [objectInfo]
    if maxObjects > 0 ∧ (objects1.length : Int) > maxObjects then
      (objects1, some "exceeded the maximum number of objects")
    else
      (objects1, none)

/-- The method `runner.getObjects`: the slice and the error it returns. -/
def getObjects (r : runner) (w : Walk) : List ObjectInfo × GoError :=
  visitObjects w (getObjectsVisit r.maxObjects) []

/-- The yielded descriptors that are not directory markers. -/
def nonDirs (items : List ObjectInfo) : List ObjectInfo :=
  items.filter (fun o => !hasSuffix o.Name "/")

/-! ## `runner.getPathForObject` and `runner.printObject` -/

/-- The method `runner.getPathForObject`. -/
def getPathForObject (r : runner) (name : String) : String :=
  let nameWithoutPrefix := trimPrefix name r.prefix_
  filepathJoin [r.outputDirectory, nameWithoutPrefix]

/-- The line `runner.printObject` writes to standard output. -/
def printObject (r : runner) (name : String) (size : Int) : String :=
  if r.verbose then
    name ++ " --> " ++ getPathForObject r name ++ " (size=" ++ toString size ++ ")\n"
  else
    name ++ "\n"

/-! ## The operating system seen by `OsCopier` -/

/-- File contents and object contents are byte sequences. -/
abbrev Bytes := List UInt8

/-- A call of one of the three entry points `os_copier.go` reaches the
operating system through: `osMkdirAll(path, perm)`, `osCreate(name)` and
`ioCopy(file, reader)`, the file being named by the path it was created
at and the reader by the bytes it delivers. -/
inductive OsCall where
  | mkdirAll (path : String) (perm : Nat)
  | create (name : String)
  | copy (name : String) (data : Bytes)
deriving DecidableEq, Repr

/-- The file system as the code can observe it: the regular files with
their contents (the newest binding of a path first) and the record of the
calls made so far, oldest first. Files are told apart by the text of
their path: two texts that name one file are not identified. -/
structure World where
  files : List (String × Bytes)
  calls : List OsCall
deriving DecidableEq, Repr

/-- How a failing call fails: the cause it reports and, for `ioCopy`, the
number of bytes that reached the file before the failure. -/
structure Fault where
  cause : String
  written : Nat
deriving DecidableEq, Repr

/-- The environment's choice of the calls that fail; it may depend on the
whole state of the file system. -/
abbrev Faults := World → OsCall → Option Fault

/-- The contents of the file at `path`, if there is one. -/
def fileAt (w : World) (path : String) : Option Bytes :=
  match w.files.find? (fun f => f.1 == path) with
  | some f => some f.2
  | none => none

/-- The entry point `osMkdirAll` (`os.MkdirAll`): the call is recorded; file
contents are not touched. -/
def osMkdirAll (flt : Faults) (w : World) (path : String) (perm : Nat) : World × GoError :=
  let c := OsCall.mkdirAll path perm
  ({ w with calls := w.calls ++ [c] }, (flt w c).map Fault.cause)

/-- The entry point `osCreate` (`os.Create`): on success the file at `name`
exists and is empty. -/
def osCreate (flt : Faults) (w : World) (name : String) : World × GoError :=
  let c := OsCall.create name
  match flt w c with
  | some f => ({ w with calls := w.calls ++ [c] }, some f.cause)
  | none => ({ files := (name, []) :: w.files, calls := w.calls ++ [c] }, none)

/-- The entry point `ioCopy` (`io.Copy`): the reader's bytes are appended to
the file; on success all of them and the count is their number, on failure
the part that was written before it. -/
def ioCopy (flt : Faults) (w : World) (name : String) (data : Bytes) :
    World × (Int × GoError) :=
  let c := OsCall.copy name data
  let old := (fileAt w name).getD []
  match flt w c with
  | some f =>
    let part := data.take f.written
    ({ files := (name, old ++ part) :: w.files, calls := w.calls ++ [c] },
      ((part.length : Int), some f.cause))
  | none =>
    ({ files := (name, old ++ data) :: w.files, calls := w.calls ++ [c] },
      ((data.length : Int), none))

/-- Go `[]byte(s)`: the UTF-8 bytes of a string. -/
def stringBytes (s : String) : Bytes := s.toUTF8.data.toList

/-! ## `OsCopier.CopyToFile` -/

/-- The method `OsCopier.safeMkdirAll`: `osMkdirAll(path, 0755)` under the
mutex. -/
def safeMkdirAll (flt : Faults) (w : World) (path : String) : World × GoError :=
  osMkdirAll flt w path 0o755

/-- The method `OsCopier.CopyToFile`: the resulting file system, the byte count
and the error. -/
def CopyToFile (flt : Faults) (w : World) (path : String) (reader : Bytes) :
    World × (Int × GoError) :=
  let dirPath := filepathDir path
  match safeMkdirAll flt w dirPath with
  | (w1, some err) =>
    (w1, (0, some ("failed to create directory " ++ dirPath ++ ": " ++ err)))
  | (w1, none) =>
    match osCreate flt w1 path with
    | (w2, some err) => (w2, (0, some ("failed to create file " ++ path ++ ": " ++ err)))
    | (w2, none) =>
      match ioCopy flt w2 path reader with
      | (w3, (_, some err)) =>
        (w3, (0, some ("failed writing to file " ++ path ++ ": " ++ err)))
      | (w3, (bytes, none)) => (w3, (bytes, none))

/-! ## The per-object task of `run` -/

/-- The two collaborators `run` reaches through package variables: the store
(`storageClient.ReadObject`, given bucket and object name, delivers a
reader, modelled by its bytes, or an error) and the copier
(`fileCopier.CopyToFile`). -/
structure Env where
  readObject : String → String → Except String Bytes
  copyToFile : World → String → Bytes → World × (Int × GoError)

/-- Everything a task can touch outside the scheduler: the file system,
the lines written to standard output, and the record of the calls made to
`ReadObject` (bucket, name) and to `CopyToFile` (path, bytes of the reader). -/
structure Effects where
  world : World
  stdout : List String
  reads : List (String × String)
  copies : List (String × Bytes)

/-- The method `runner.downloadObject`. -/
def downloadObject (r : runner) (env : Env) (e : Effects) (objectName : String) :
    Effects × GoError :=
  let e1 := { e with reads := e.reads ++ [(r.bucketName, objectName)] }
  match env.readObject r.bucketName objectName with
  | .error err =>
    (e1, some ("failed to create new reader for " ++ objectName ++ ": " ++ err))
  | .ok reader =>
    let path := getPathForObject r objectName
    let e2 := { e1 with copies := e1.copies ++ [(path, reader)] }
    match env.copyToFile e2.world path reader with
    | (w1, (_, some err)) =>
      ({ e2 with world := w1 },
        some ("failed writing to file " ++ objectName ++ ": " ++ err))
    | (w1, (bytes, none)) =>
      ({ e2 with world := w1, stdout := e2.stdout ++ [printObject r objectName bytes] }, none)

/-- The body of the goroutine started per object (lines 139-144): the value
it then sends on `errorChan`. -/
def taskBody (r : runner) (env : Env) (e : Effects) (obj : ObjectInfo) : Effects × GoError :=
  if r.dryRun then
    ({ e with stdout := e.stdout ++ [printObject r obj.Name obj.Size] }, none)
  else
    downloadObject r env e obj.Name

/-! ## The goroutines of `run` as a transition system -/

/-- Where a per-object goroutine stands: started and not yet through its
body; blocked in `errorChan <- ...`; past the send with the deferred
`<-sem` still to run; returned. -/
inductive Stage where
  | running
  | sending
  | releasing
  | finished
deriving DecidableEq, Repr

/-- A per-object goroutine: its object, its stage, and the value its body
produced (meaningful once the stage is past `running`). -/
structure Task where
  obj : ObjectInfo
  stage : Stage
  res : GoError

/-- The state of `run` from line 124 on. `pending` is what the dispatching
goroutine's `range objects` has not reached yet, `acquired` whether it
holds a semaphore slot for the head of `pending`, `tasks` the goroutines
started so far in the order they were started, `sem` the number of values in
the channel `sem`, `mainLeft` the iterations the receiving loop of lines
149-154 has still to make, `received` what it has received, `result`
the value `run` has returned (`none` while it has not returned). -/
structure State where
  pending : List ObjectInfo
  acquired : Bool
  tasks : List Task
  sem : Nat
  mainLeft : Nat
  received : List GoError
  result : Option GoError
  eff : Effects

/-- The state in which `run` leaves lines 120-129 for the batch `objects`:
it has returned at once when the batch is empty, with an error if
`notFoundIsError` is set and with `nil` (no iteration of the receiving
loop) if not. -/
def start (r : runner) (objects : List ObjectInfo) (w : World) : State :=
  { pending := objects
    acquired := false
    tasks := []
    sem := 0
    mainLeft := objects.length
    received := []
    result :=
      if r.notFoundIsError ∧ objects.length = 0 then some (some "no objects found")
      else if objects.length = 0 then some none
      else none
    eff := { world := w, stdout := [], reads := [], copies := [] } }

/-- The atomic steps a scheduler can choose from. -/
inductive Action where
  /-- The dispatcher's `sem <- true`. -/
  | acquire
  /-- The dispatcher's `go func(obj)`. -/
  | spawn
  /-- Goroutine `i` runs its body up to the send, as one step: the calls a
  body makes on the store, the copier and standard output are not
  interleaved with those of another body. -/
  | work (i : Nat)
  /-- The main loop receives from `errorChan` the value goroutine `i` sends. -/
  | recv (i : Nat)
  /-- The deferred `<-sem` of goroutine `i`. -/
  | release (i : Nat)
deriving DecidableEq, Repr

/-- One step of `run`. A step that is not enabled in `st` (a full
semaphore, an index that names no goroutine at the right stage, a
receive after `run` has returned) leaves the state as it is. -/
def step (r : runner) (env : Env) (st : State) : Action → State
  | .acquire =>
    if r.maxConcurrent > 0 ∧ st.pending ≠ [] ∧ st.acquired = false ∧
        (st.sem : Int) < r.maxConcurrent then
      { st with sem := st.sem + 1, acquired := true }
    else st
  | .spawn =>
    match st.pending with
    | [] => st
    | obj :: rest =>
      if r.maxConcurrent > 0 ∧ st.acquired = false then st
      else
        { st with
          pending := rest
          acquired := false
          tasks := st.tasks ++ [{ obj := obj, stage := .running, res := none }] }
  | .work i =>
    match st.tasks[i]? with
    | none => st
    | some t =>
      if t.stage = .running then
        let out := taskBody r env st.eff t.obj
        { st with
          tasks := st.tasks.set i { t with stage := .sending, res := out.2 }
          eff := out.1 }
      else st
  | .recv i =>
    match st.result, st.tasks[i]? with
    | none, some t =>
      if t.stage = .sending then
        let st1 : State :=
          { st with
            tasks := st.tasks.set i
              { t with stage := if r.maxConcurrent > 0 then .releasing else .finished }
            received := st.received ++ [t.res]
            mainLeft := st.mainLeft - 1 }
        match t.res with
        | some err => { st1 with result := some (some err) }
        | none => if st1.mainLeft = 0 then { st1 with result := some none } else st1
      else st
    | _, _ => st
  | .release i =>
    match st.tasks[i]? with
    | none => st
    | some t =>
      if t.stage = .releasing then
        { st with tasks := st.tasks.set i { t with stage := .finished }, sem := st.sem - 1 }
      else st

/-- The state after a schedule, a sequence of scheduler choices. -/
def exec (r : runner) (env : Env) (st : State) (sched : List Action) : State :=
  sched.foldl (step r env) st

/-- Whether a goroutine has been started and has not returned. -/
def Task.inFlight (t : Task) : Bool :=
  t.stage != .finished

/-- The number of per-object goroutines in flight. -/
def inFlight (st : State) : Nat :=
  st.tasks.countP Task.inFlight

/-- Whether a goroutine is through its body. -/
def Task.worked (t : Task) : Bool :=
  t.stage != .running

/-- Whether the value a goroutine sends has been received by the main loop. -/
def Task.delivered (t : Task) : Bool :=
  t.stage == .releasing || t.stage == .finished

/-- The effective steps of `run`: what `step` does when the chosen action
is enabled. -/
inductive Move (r : runner) (env : Env) (st : State) : State → Prop
  | acquire (hC : r.maxConcurrent > 0) (hp : st.pending ≠ []) (ha : st.acquired = false)
      (hs : (st.sem : Int) < r.maxConcurrent) :
      Move r env st { st with sem := st.sem + 1, acquired := true }
  | spawn (obj : ObjectInfo) (rest : List ObjectInfo) (hp : st.pending = obj :: rest)
      (ha : r.maxConcurrent > 0 → st.acquired = true) :
      Move r env st
        { st with
          pending := rest
          acquired := false
          tasks := st.tasks ++ [{ obj := obj, stage := .running, res := none }] }
  | work (i : Nat) (t : Task) (hi : st.tasks[i]? = some t) (hs : t.stage = .running) :
      Move r env st
        { st with
          tasks := st.tasks.set i
            { t with stage := .sending, res := (taskBody r env st.eff t.obj).2 }
          eff := (taskBody r env st.eff t.obj).1 }
  | recv (i : Nat) (t : Task) (hr : st.result = none) (hi : st.tasks[i]? = some t)
      (hs : t.stage = .sending) :
      Move r env st
        { st with
          tasks := st.tasks.set i
            { t with stage := if r.maxConcurrent > 0 then .releasing else .finished }
          received := st.received ++ [t.res]
          mainLeft := st.mainLeft - 1
          result :=
            match t.res with
            | some err => some (some err)
            | none => if st.mainLeft - 1 = 0 then some none else none }
  | release (i : Nat) (t : Task) (hi : st.tasks[i]? = some t) (hs : t.stage = .releasing) :
      Move r env st
        { st with tasks := st.tasks.set i { t with stage := .finished }, sem := st.sem - 1 }

/-- The scheduler's invariant for the batch `objects`: the goroutines
started are those of an initial segment of the batch, in order; the
semaphore counts the slot the dispatcher holds and the goroutines in
flight and never exceeds its capacity; the main loop has received one
value per goroutine past its send and has as many iterations left as
values are outstanding; while `run` has not returned an error all values
received are `nil`, and an error it has returned is either the not-found
error of an empty batch or the last value received, sent by a goroutine. -/
structure SchedInv (r : runner) (objects : List ObjectInfo) (st : State) : Prop where
  dispatched : st.tasks.map Task.obj ++ st.pending = objects
  semCount : r.maxConcurrent > 0 →
    st.sem = (if st.acquired then 1 else 0) + inFlight st
  semBound : r.maxConcurrent > 0 → (st.sem : Int) ≤ r.maxConcurrent
  mainCount : st.mainLeft + st.tasks.countP Task.delivered = objects.length
  recvCount : st.received.length = st.tasks.countP Task.delivered
  mainPos : st.result = none → 0 < st.mainLeft
  nilDone : st.result = some none → st.mainLeft = 0
  nilSoFar : (∀ e, st.result ≠ some (some e)) →
    (∀ t ∈ st.tasks, t.delivered = true → t.res = none) ∧ ∀ x ∈ st.received, x = none
  errFrom : ∀ e, st.result = some (some e) →
    (r.notFoundIsError = true ∧ objects = [] ∧ e = "no objects found" ∧ st.received = []) ∨
    ((∃ t ∈ st.tasks, t.delivered = true ∧ t.res = some e) ∧
      ∃ k, st.received = List.replicate k none ++ [some e])

/-- The line a goroutine of a dry run has written once it is through its
body: `printObject` on the descriptor's name and declared size. -/
def dryLine (r : runner) (t : Task) : Option String :=
  if t.worked then some (printObject r t.obj.Name t.obj.Size) else none

/-- The bytes the store provides for an object name (none when it has no
reader for it). -/
def storeBytes (r : runner) (env : Env) (name : String) : Bytes :=
  match env.readObject r.bucketName name with
  | .ok b => b
  | .error _ => []

/-- The call of `CopyToFile` a goroutine of a download has made once it is
through its body: none when the store gave no reader. -/
def copyArg (r : runner) (env : Env) (t : Task) : Option (String × Bytes) :=
  if t.worked then
    match env.readObject r.bucketName t.obj.Name with
    | .ok b => some (getPathForObject r t.obj.Name, b)
    | .error _ => none
  else none

/-- The invariant of a dry run started on the file system `w`. -/
structure DryInv (r : runner) (w : World) (st : State) : Prop where
  reads : st.eff.reads = []
  copies : st.eff.copies = []
  world : st.eff.world = w
  stdout : st.eff.stdout.Perm (st.tasks.filterMap (dryLine r))
  noError : ∀ t ∈ st.tasks, t.res = none

/-- The invariant of a download: `CopyToFile` has been called once for each
goroutine that is through its body and got a reader, with the path of its
object and the reader's bytes; and a goroutine that produced `nil` got a
reader. -/
structure LoadInv (r : runner) (env : Env) (st : State) : Prop where
  copies : st.eff.copies.Perm (st.tasks.filterMap (copyArg r env))
  readOk : ∀ t ∈ st.tasks, t.worked = true → t.res = none →
    env.readObject r.bucketName t.obj.Name = .ok (storeBytes r env t.obj.Name)

/-- The number of steps a goroutine at this stage can still take. -/
def Stage.weight : Stage → Nat
  | .running => 3
  | .sending => 2
  | .releasing => 1
  | .finished => 0

/-- A bound on the number of effective steps still possible from a state. -/
def stepsLeft (st : State) : Nat :=
  5 * st.pending.length + (if st.acquired then 0 else 1) +
    (st.tasks.map (fun t => t.stage.weight)).sum

/-- The environment of the shipped program: the copier is `OsCopier` over
the operating system with the given faults. -/
def osEnv (readObject : String → String → Except String Bytes) (flt : Faults) : Env :=
  { readObject := readObject, copyToFile := CopyToFile flt }

/-! ## `runner.run` from its first line -/

/-- What `run` meets before it dispatches: the string `version.Version`
(the package `version` is outside the files at hand), the result of
`storageClient.Connect`, and the walk that `VisitObjects` performs for a
bucket name and a prefix. -/
structure Session where
  versionString : String
  connect : GoError
  list : String → String → Walk

/-- The state of a `run` that has returned before line 124: nothing was
dispatched, `out` is what it printed, `err` what it returned. -/
def returned (w : World) (out : List String) (err : GoError) : State :=
  { pending := []
    acquired := false
    tasks := []
    sem := 0
    mainLeft := 0
    received := []
    result := some err
    eff := { world := w, stdout := out, reads := [], copies := [] } }

/-- The method `runner.run`: the state reached under the schedule `sched`
of the goroutines it starts. Lines 100-118 return early on `--version`, on
an error of `configure`, of `Connect` or of `getObjects`; lines 120-157 are
`start` and the steps of the schedule. -/
def run (r : runner) (env : Env) (ses : Session) (args : List String) (w : World)
    (sched : List Action) : State :=
  if r.version then
    returned w [ses.versionString ++ "\n"] none
  else
    match configure r args with
    | (_, some err) => returned w [] (some err)
    | (r1, none) =>
      match ses.connect with
      | some err => returned w [] (some ("failed to create storage client: " ++ err))
      | none =>
        match getObjects r1 (ses.list r1.bucketName r1.prefix_) with
        | (_, some err) => returned w [] (some ("failed to get objects: " ++ err))
        | (objects, none) => exec r1 env (start r1 objects w) sched

/-! ## Paths under a directory -/

/-- Whether the cleaned path `path` names the directory `dir` or something
below it, judged on the text of the two paths: below `.` is every relative
path that does not climb, below `/` every rooted path, below any other
directory the paths that continue it after a separator. -/
def liesUnder (dir path : String) : Bool :=
  let d := filepathClean dir
  if d = "." then
    !hasPrefix path "/" && path != ".." && !hasPrefix path "../"
  else if d = "/" then
    hasPrefix path "/"
  else
    path == d || hasPrefix path (d ++ "/")

/-! ## The fixtures of `cmd/command_test.go` -/

/-- The runner of `TestCommandShouldRunSuccessfully` after `configure`:
arguments `bucket`, `prefix`, `path` and the flags of the test case. -/
def testRunner (dryRun : Bool) (maxConcurrent maxObjects : Int) : runner :=
  { bucketName := "bucket"
    prefix_ := "prefix/"
    outputDirectory := "path"
    dryRun := dryRun
    notFoundIsError := false
    maxConcurrent := maxConcurrent
    maxObjects := maxObjects
    verbose := false
    version := false }

/-- The three descriptors of `testObjects`. -/
def testObjects : List ObjectInfo :=
  [{ Name := "prefix/foo", Size := 12 }, { Name := "prefix/bar", Size := 12 },
    { Name := "prefix/baz/qux", Size := 12 }]

/-- The mock store's `ObjectContentProviderFunc`: the data of the three
objects in bucket `bucket`; any other request is the test's failure. -/
def testStore (bucketName objectName : String) : Except String Bytes :=
  if bucketName = "bucket" ∧ objectName = "prefix/foo" then
    .ok (stringBytes "prefix/foo contents")
  else if bucketName = "bucket" ∧ objectName = "prefix/bar" then
    .ok (stringBytes "prefix/bar contents")
  else if bucketName = "bucket" ∧ objectName = "prefix/baz/qux" then
    .ok (stringBytes "prefix/baz/qux contents")
  else .error ("unexpected bucketName/objectName: " ++ bucketName ++ "/" ++ objectName)

/-- A store with two objects whose names differ by a doubled separator. -/
def collidingStore (_bucketName objectName : String) : Except String Bytes :=
  if objectName = "prefix/a" then .ok [1]
  else if objectName = "prefix//a" then .ok [2]
  else .error "object does not exist"

/-- The session of `TestCommandShouldHandleNoResults`: the mock client
connects and its `ObjectInfoProviderFunc` returns the empty slice. -/
def emptySession : Session :=
  { versionString := "dev"
    connect := none
    list := fun _ _ => { items := [], fail := none } }

/-- The runner `NewCommand` builds, with the flag `--error` as given: the
defaults of the other flags. -/
def newRunner (notFoundIsError : Bool) : runner :=
  { bucketName := ""
    prefix_ := ""
    outputDirectory := ""
    dryRun := false
    notFoundIsError := notFoundIsError
    maxConcurrent := 8
    maxObjects := 1000
    verbose := false
    version := false }

/-- The serial schedule of a batch of `n` objects under a semaphore: each
object is dispatched, worked, received and released before the next. -/
def serialSchedule : Nat → Nat → List Action
  | _, 0 => []
  | i, n + 1 => [.acquire, .spawn, .work i, .recv i, .release i] ++ serialSchedule (i + 1) n

/-! ## Lemmas on the walk -/

theorem visitLoop_getObjects_ok (m : Int) (fail : GoError) :
    ∀ (items acc : List ObjectInfo),
      (m ≤ 0 ∨ ((acc.length + (nonDirs items).length : Nat) : Int) ≤ m) →
      visitLoop (getObjectsVisit m) items fail acc = (acc ++ nonDirs items, fail) := by
  intro items
  induction items with
  | nil => intro acc _; simp [visitLoop, nonDirs]
  | cons o rest ih =>
    intro acc h
    by_cases hd : hasSuffix o.Name "/" = true
    · have hnd : nonDirs (o :: rest) = nonDirs rest := by simp [nonDirs, hd]
      rw [hnd] at h ⊢
      simp only [visitLoop, getObjectsVisit, hd, if_true]
      exact ih acc h
    · have hnd : nonDirs (o :: rest) = o :: nonDirs rest := by simp [nonDirs, hd]
      rw [hnd] at h ⊢
      have hlen : ¬ (m > 0 ∧ (((acc ++ [o]).length : Nat) : Int) > m) := by
        simp only [List.length_append, List.length_cons, List.length_nil] at h ⊢
        omega
      simp only [visitLoop, getObjectsVisit, hd, hlen, if_false, Bool.false_eq_true]
      rw [ih (acc ++ [o])]
      · simp
      · simp only [List.length_append, List.length_cons, List.length_nil] at h ⊢
        omega

theorem visitLoop_getObjects_over (m : Int) (fail : GoError) (hm : m > 0) :
    ∀ (items acc : List ObjectInfo),
      ((acc.length : Nat) : Int) ≤ m →
      ((acc.length + (nonDirs items).length : Nat) : Int) > m →
      visitLoop (getObjectsVisit m) items fail acc =
        (acc ++ (nonDirs items).take (m.toNat + 1 - acc.length),
          some "exceeded the maximum number of objects") := by
  intro items
  induction items with
  | nil => intro acc h1 h2; simp [nonDirs] at h2; omega
  | cons o rest ih =>
    intro acc h1 h2
    by_cases hd : hasSuffix o.Name "/" = true
    · have hnd : nonDirs (o :: rest) = nonDirs rest := by simp [nonDirs, hd]
      rw [hnd] at h2 ⊢
      simp only [visitLoop, getObjectsVisit, hd, if_true]
      exact ih acc h1 h2
    · have hnd : nonDirs (o :: rest) = o :: nonDirs rest := by simp [nonDirs, hd]
      rw [hnd] at h2 ⊢
      by_cases hlen : (((acc ++ [o]).length : Nat) : Int) > m
      · have hc : (m > 0 ∧ (((acc ++ [o]).length : Nat) : Int) > m) := ⟨hm, hlen⟩
        simp only [visitLoop, getObjectsVisit, hd, hc, if_false, if_true, Bool.false_eq_true]
        simp only [List.length_append, List.length_cons, List.length_nil] at hlen
        have : m.toNat + 1 - acc.length = 1 := by omega
        rw [this]; simp
      · have hc : ¬ (m > 0 ∧ (((acc ++ [o]).length : Nat) : Int) > m) := fun h => hlen h.2
        simp only [visitLoop, getObjectsVisit, hd, hc, if_false, Bool.false_eq_true]
        simp only [List.length_append, List.length_cons, List.length_nil] at hlen h2
        rw [ih (acc ++ [o])]
        · have : m.toNat + 1 - acc.length = (m.toNat + 1 - (acc ++ [o]).length) + 1 := by
            simp only [List.length_append, List.length_cons, List.length_nil]; omega
          rw [this]; simp
        · simp only [List.length_append, List.length_cons, List.length_nil]; omega
        · simp only [List.length_append, List.length_cons, List.length_nil]; omega

/-! ## `getObjects`: the batch and the cap (C2, C3, C4) -/

/-- C2: on a walk that does not fail, with `maxObjects` zero or at least the
number of yielded names not ending in `/`, `getObjects` returns no error
and exactly the yielded descriptors whose names do not end in `/`, in yield
order and unchanged; so no name in the batch ends in `/`. -/
theorem getObjects_returns_nonDirs (r : runner) (items : List ObjectInfo)
    (h : r.maxObjects = 0 ∨ ((nonDirs items).length : Int) ≤ r.maxObjects) :
    getObjects r { items := items, fail := none } =
        (items.filter (fun o => !hasSuffix o.Name "/"), none) ∧
      ∀ o ∈ (getObjects r { items := items, fail := none }).1,
        hasSuffix o.Name "/" = false := by
  have hres : getObjects r { items := items, fail := none } = (nonDirs items, none) := by
    have := visitLoop_getObjects_ok r.maxObjects none items []
      (by rcases h with h | h
          · left; omega
          · right; simpa using h)
    simpa [getObjects, visitObjects] using this
  refine ⟨hres, ?_⟩
  rw [hres]
  intro o ho
  simp only [nonDirs, List.mem_filter] at ho
  simpa using ho.2

theorem getObjects_returns_nonDirs_witness :
    getObjects ⟨"bucket", "prefix/", "path", false, false, 8, 2, false, false⟩
        { items := [⟨"prefix/dir/", 0⟩, ⟨"prefix/dir/file", 7⟩, ⟨"prefix/foo", 12⟩],
          fail := none } =
        ([⟨"prefix/dir/file", 7⟩, ⟨"prefix/foo", 12⟩], none) ∧
      ∀ o ∈ (getObjects ⟨"bucket", "prefix/", "path", false, false, 8, 2, false, false⟩
        { items := [⟨"prefix/dir/", 0⟩, ⟨"prefix/dir/file", 7⟩, ⟨"prefix/foo", 12⟩],
          fail := none }).1, hasSuffix o.Name "/" = false :=
  getObjects_returns_nonDirs ⟨"bucket", "prefix/", "path", false, false, 8, 2, false, false⟩
    [⟨"prefix/dir/", 0⟩, ⟨"prefix/dir/file", 7⟩, ⟨"prefix/foo", 12⟩] (by decide)

/-- C3: on a walk that does not fail, `getObjects` returns an error exactly
when `maxObjects > 0` and more than `maxObjects` yielded names do not end
in `/`; three objects pass with `maxObjects = 3` and fail with
`maxObjects = 2`, and `maxObjects = 0` never fails. -/
theorem getObjects_error_iff (r : runner) (items : List ObjectInfo) :
    ((getObjects r { items := items, fail := none }).2 ≠ none ↔
        (r.maxObjects > 0 ∧
          ((items.filter (fun o => !hasSuffix o.Name "/")).length : Int) > r.maxObjects)) ∧
      (getObjects ⟨"bucket", "prefix/", "path", false, false, 1, 3, false, false⟩
        { items := [⟨"prefix/foo", 12⟩, ⟨"prefix/bar", 12⟩, ⟨"prefix/baz/qux", 12⟩],
          fail := none }).2 = none ∧
      (getObjects ⟨"bucket", "prefix/", "path", false, false, 1, 2, false, false⟩
        { items := [⟨"prefix/foo", 12⟩, ⟨"prefix/bar", 12⟩, ⟨"prefix/baz/qux", 12⟩],
          fail := none }).2 = some "exceeded the maximum number of objects" := by
  refine ⟨?_, by decide, by decide⟩
  change _ ↔ (r.maxObjects > 0 ∧ ((nonDirs items).length : Int) > r.maxObjects)
  by_cases hover : r.maxObjects > 0 ∧ ((nonDirs items).length : Int) > r.maxObjects
  · have := visitLoop_getObjects_over r.maxObjects none hover.1 items []
      (by simp; omega) (by simpa using hover.2)
    have hres : (getObjects r { items := items, fail := none }).2 =
        some "exceeded the maximum number of objects" := by
      simp [getObjects, visitObjects, this]
    simp [hres, hover]
  · have := visitLoop_getObjects_ok r.maxObjects none items []
      (by simp only [List.length_nil, Nat.zero_add]; omega)
    have hres : (getObjects r { items := items, fail := none }).2 = none := by
      simp [getObjects, visitObjects, this]
    simp only [hres, ne_eq, not_true_eq_false, false_iff]
    exact hover

/-- C4 (as amended): with `maxObjects > 0`, whatever the store yields, a
batch that `getObjects` returns without error has at most `maxObjects`
descriptors; a walk that yields more than `maxObjects` names not ending in
`/` ends in the error, not in a shortened batch, and the slice returned
with the error holds the first `maxObjects + 1` of those descriptors; in
every case the slice holds at most `maxObjects + 1`. -/
theorem getObjects_cap (r : runner) (w : Walk) (hpos : r.maxObjects > 0) :
    ((getObjects r w).2 = none → ((getObjects r w).1.length : Int) ≤ r.maxObjects) ∧
      (((w.items.filter (fun o => !hasSuffix o.Name "/")).length : Int) > r.maxObjects →
        (getObjects r w).2 = some "exceeded the maximum number of objects" ∧
          (getObjects r w).1 =
            (w.items.filter (fun o => !hasSuffix o.Name "/")).take (r.maxObjects.toNat + 1) ∧
          ((getObjects r w).1.length : Int) = r.maxObjects + 1) ∧
      ((getObjects r w).1.length : Int) ≤ r.maxObjects + 1 := by
  change _ ∧ (((nonDirs w.items).length : Int) > r.maxObjects →
    _ ∧ _ = (nonDirs w.items).take (r.maxObjects.toNat + 1) ∧ _) ∧ _
  by_cases hover : ((nonDirs w.items).length : Int) > r.maxObjects
  · have := visitLoop_getObjects_over r.maxObjects w.fail hpos w.items []
      (by simp; omega) (by simpa using hover)
    have hres : getObjects r w = ((nonDirs w.items).take (r.maxObjects.toNat + 1),
        some "exceeded the maximum number of objects") := by
      simpa [getObjects, visitObjects] using this
    have hlen : (((nonDirs w.items).take (r.maxObjects.toNat + 1)).length : Int) =
        r.maxObjects + 1 := by
      rw [List.length_take]
      omega
    rw [hres]
    refine ⟨fun h => absurd h (by simp), fun _ => ⟨rfl, rfl, hlen⟩, ?_⟩
    show (((nonDirs w.items).take (r.maxObjects.toNat + 1)).length : Int) ≤ _
    omega
  · have := visitLoop_getObjects_ok r.maxObjects w.fail w.items []
      (by right; simp only [List.length_nil, Nat.zero_add]; omega)
    have hres : getObjects r w = (nonDirs w.items, w.fail) := by
      simpa [getObjects, visitObjects] using this
    rw [hres]
    refine ⟨fun _ => by simpa using hover, fun h => absurd h hover, ?_⟩
    show ((nonDirs w.items).length : Int) ≤ _
    omega

theorem getObjects_cap_witness :
    ((getObjects (testRunner false 8 3) { items := testObjects, fail := none }).1.length : Int) ≤
        (testRunner false 8 3).maxObjects ∧
      ((getObjects (testRunner false 8 2) { items := testObjects, fail := none }).2 =
          some "exceeded the maximum number of objects" ∧
        (getObjects (testRunner false 8 2) { items := testObjects, fail := none }).1 =
          (testObjects.filter (fun o => !hasSuffix o.Name "/")).take
            ((testRunner false 8 2).maxObjects.toNat + 1) ∧
        ((getObjects (testRunner false 8 2) { items := testObjects, fail := none }).1.length :
            Int) = (testRunner false 8 2).maxObjects + 1) :=
  ⟨(getObjects_cap (testRunner false 8 3) { items := testObjects, fail := none }
      (by decide)).1 (by decide),
   (getObjects_cap (testRunner false 8 2) { items := testObjects, fail := none }
      (by decide)).2.1 (by decide)⟩

/-- C4 (as stated) fails over the cap: with `maxObjects = 2` and the three
objects of the test, `getObjects` returns the error together with a slice
of three descriptors, one more than `maxObjects`. -/
theorem getObjects_over_cap_returns_extra :
    (testRunner false 8 2).maxObjects = 2 ∧
      (getObjects (testRunner false 8 2) { items := testObjects, fail := none }).2 =
        some "exceeded the maximum number of objects" ∧
      (getObjects (testRunner false 8 2) { items := testObjects, fail := none }).1 =
        testObjects ∧
      (getObjects (testRunner false 8 2) { items := testObjects, fail := none }).1.length =
        3 := by
  decide

/-! ## `configure` (C5) -/

theorem hasSuffix_slash (p : String) :
    hasSuffix p "/" = true ↔ p.data.getLast? = some '/' := by
  obtain ⟨l⟩ := p
  rcases List.eq_nil_or_concat l with h | ⟨l', a, h⟩
  · subst h; decide
  · subst h
    simp [hasSuffix, String.length]

theorem trimPrefix_slash (l : List Char) :
    trimPrefix (String.mk l) "/" =
      String.mk (match l with
        | '/' :: t => t
        | _ => l) := by
  cases l with
  | nil => decide
  | cons c t =>
    by_cases hc : c = '/'
    · subst hc; simp [trimPrefix, hasPrefix, String.length]
    · have : hasPrefix (String.mk (c :: t)) "/" = false := by
        simp [hasPrefix, String.length, hc]
      have hm : (match c :: t with
          | '/' :: t => t
          | _ => c :: t) = c :: t := by
        split
        · rename_i h; simp at h; exact absurd h.1 hc
        · rfl
      simp only [trimPrefix, this, Bool.false_eq_true, if_false, hm]

theorem normalizePrefix_eq_spec (p : String) : normalizePrefix p = normalizeSpec p := by
  unfold normalizePrefix normalizeSpec
  by_cases hs : hasSuffix p "/" = true
  · have hl := (hasSuffix_slash p).1 hs
    simp only [hs, hl, Bool.not_true, Bool.false_eq_true, if_false, if_true]
    by_cases h1 : p = "/"
    · subst h1; decide
    · have h2 : ¬ p.data = ['/'] := fun h => h1 (by obtain ⟨l⟩ := p; simp at h; subst h; rfl)
      simp only [h1, h2, if_false]
      obtain ⟨l⟩ := p
      exact trimPrefix_slash l
  · have hl : ¬ p.data.getLast? = some '/' := fun h => hs ((hasSuffix_slash p).2 h)
    have hs' : hasSuffix p "/" = false := by simpa using hs
    simp only [hs', hl, Bool.not_false, if_true, if_false]
    by_cases h1 : p ++ "/" = "/"
    · have h2 : p.data ++ ['/'] = ['/'] := by
        have := congrArg String.data h1
        simpa using this
      simp only [h1, h2, if_true]
      decide
    · have h2 : ¬ p.data ++ ['/'] = ['/'] := fun h => h1 (by
        obtain ⟨l⟩ := p
        simp at h; subst h; rfl)
      simp only [h1, h2, if_false]
      have : p ++ "/" = String.mk (p.data ++ ['/']) := by
        obtain ⟨l⟩ := p; rfl
      rw [this]
      exact trimPrefix_slash _

/-- C5: with exactly three arguments and both caps non-negative,
`configure` succeeds, keeps the bucket and the output directory as given
and sets the prefix to the normalised second argument (a `/` appended when
it does not end in one, a result that is exactly `/` emptied, one leading
`/` stripped); the six prefixes of the test table normalise as listed. -/
theorem configure_sets_args (r : runner) (bucket pre out : String)
    (hc : r.maxConcurrent ≥ 0) (ho : r.maxObjects ≥ 0) :
    (configure r [bucket, pre, out]).2 = none ∧
      (configure r [bucket, pre, out]).1.bucketName = bucket ∧
      (configure r [bucket, pre, out]).1.outputDirectory = out ∧
      (configure r [bucket, pre, out]).1.prefix_ = normalizeSpec pre ∧
      ["", "/", "foo", "/foo", "/foo/", "foo/"].map
          (fun p => (configure r [bucket, p, out]).1.prefix_) =
        ["", "", "foo/", "foo/", "foo/", "foo/"] := by
  have hcfg : ∀ p : String, configure r [bucket, p, out] =
      ({ r with bucketName := bucket, prefix_ := normalizePrefix p, outputDirectory := out },
        none) := by
    intro p
    have h1 : ¬ r.maxConcurrent < 0 := by omega
    have h2 : ¬ r.maxObjects < 0 := by omega
    simp [configure, exactArgs, h1, h2]
  simp only [hcfg, List.map, normalizePrefix_eq_spec]
  refine ⟨trivial, trivial, trivial, trivial, ?_⟩
  decide

theorem configure_sets_args_witness :
    (configure ⟨"", "", "", false, false, 8, 1000, false, false⟩
        ["bucket", "prefix", "path"]).2 = none ∧
      (configure ⟨"", "", "", false, false, 8, 1000, false, false⟩
        ["bucket", "prefix", "path"]).1.prefix_ = "prefix/" := by
  have h := configure_sets_args ⟨"", "", "", false, false, 8, 1000, false, false⟩
    "bucket" "prefix" "path" (by decide) (by decide)
  exact ⟨h.1, by rw [h.2.2.2.1]; decide⟩

/-! ## `getPathForObject` (C6) -/

theorem hasPrefix_append (p rest : String) : hasPrefix (p ++ rest) p = true := by
  obtain ⟨lp⟩ := p
  obtain ⟨lr⟩ := rest
  show hasPrefix (String.mk (lp ++ lr)) (String.mk lp) = true
  simp only [hasPrefix, String.length, List.length_append,
    Bool.and_eq_true, decide_eq_true_eq, beq_iff_eq]
  exact ⟨Nat.le_add_right _ _, List.take_left _ _⟩

theorem trimPrefix_append (p rest : String) : trimPrefix (p ++ rest) p = rest := by
  have hp : hasPrefix (p ++ rest) p = true := hasPrefix_append p rest
  obtain ⟨lp⟩ := p
  obtain ⟨lr⟩ := rest
  change hasPrefix (String.mk (lp ++ lr)) (String.mk lp) = true at hp
  show trimPrefix (String.mk (lp ++ lr)) (String.mk lp) = String.mk lr
  simp only [trimPrefix, hp, if_true, String.length]
  rw [List.drop_left]

theorem hasPrefix_iff (s p : String) : hasPrefix s p = true ↔ ∃ rest : String, s = p ++ rest := by
  constructor
  · intro h
    obtain ⟨ls⟩ := s
    obtain ⟨lp⟩ := p
    simp only [hasPrefix, String.length, Bool.and_eq_true, decide_eq_true_eq, beq_iff_eq] at h
    refine ⟨String.mk (ls.drop lp.length), ?_⟩
    have : ls = lp ++ ls.drop lp.length := by
      conv_lhs => rw [← List.take_append_drop lp.length ls, h.2]
    show String.mk ls = String.mk (lp ++ ls.drop lp.length)
    rw [← this]
  · rintro ⟨rest, rfl⟩
    exact hasPrefix_append p rest

/-- C6: `getPathForObject` is `filepath.Join` of the output directory and
the name with the prefix removed when the name begins with it, the name
itself otherwise; with prefix `prefix/` and output directory `path` the
three names of the test map to `path/foo`, `path/bar`, `path/baz/qux`. -/
theorem getPathForObject_join (r : runner) (name : String) :
    (∀ rest : String, name = r.prefix_ ++ rest →
        getPathForObject r name = filepathJoin [r.outputDirectory, rest]) ∧
      ((¬ ∃ rest : String, name = r.prefix_ ++ rest) →
        getPathForObject r name = filepathJoin [r.outputDirectory, name]) ∧
      ["prefix/foo", "prefix/bar", "prefix/baz/qux"].map
          (getPathForObject ⟨"bucket", "prefix/", "path", false, false, 8, 1000, false, false⟩) =
        ["path/foo", "path/bar", "path/baz/qux"] := by
  refine ⟨?_, ?_, by decide⟩
  · rintro rest rfl
    simp [getPathForObject, trimPrefix_append]
  · intro h
    have : hasPrefix name r.prefix_ = false := by
      cases hp : hasPrefix name r.prefix_ with
      | false => rfl
      | true => exact absurd ((hasPrefix_iff _ _).1 hp) h
    simp [getPathForObject, trimPrefix, this]

theorem getPathForObject_join_witness :
    getPathForObject ⟨"bucket", "prefix/", "path", false, false, 8, 1000, false, false⟩
        "prefix/baz/qux" = filepathJoin ["path", "baz/qux"] ∧
      getPathForObject ⟨"bucket", "prefix/", "path", false, false, 8, 1000, false, false⟩
        "other/foo" = filepathJoin ["path", "other/foo"] :=
  ⟨(getPathForObject_join ⟨"bucket", "prefix/", "path", false, false, 8, 1000, false, false⟩
      "prefix/baz/qux").1 "baz/qux" (by decide),
   (getPathForObject_join ⟨"bucket", "prefix/", "path", false, false, 8, 1000, false, false⟩
      "other/foo").2.1 (fun h => absurd ((hasPrefix_iff _ _).2 h) (by decide))⟩

/-! ## `CopyToFile` (C10) -/

theorem fileAt_cons_self (name : String) (b : Bytes) (fs : List (String × Bytes))
    (cs : List OsCall) : fileAt { files := (name, b) :: fs, calls := cs } name = some b := by
  simp [fileAt, List.find?]

/-- C10 (as amended): `CopyToFile` calls `osMkdirAll(filepath.Dir(path), 0755)`,
then `osCreate(path)`, then `ioCopy` into that file, stopping at the first
call that fails; a failure of the first is reported with the directory
`filepath.Dir(path)` and its cause, a failure of the other two with `path`
and its cause, each with count 0; when all three succeed the count is the
number of bytes of the reader and the file at `path` holds them. For
`/foo/bar/baz` and `test content` the directory is `/foo/bar` and the
count 12. -/
theorem CopyToFile_steps (flt : Faults) (w : World) (path : String) (reader : Bytes) :
    (∀ f, flt w (.mkdirAll (filepathDir path) 0o755) = some f →
        CopyToFile flt w path reader =
          ({ w with calls := w.calls ++ [.mkdirAll (filepathDir path) 0o755] },
            (0, some ("failed to create directory " ++ filepathDir path ++ ": " ++ f.cause)))) ∧
      (flt w (.mkdirAll (filepathDir path) 0o755) = none →
        ∀ f, flt { w with calls := w.calls ++ [.mkdirAll (filepathDir path) 0o755] }
            (.create path) = some f →
          CopyToFile flt w path reader =
            ({ w with calls := w.calls ++ [.mkdirAll (filepathDir path) 0o755, .create path] },
              (0, some ("failed to create file " ++ path ++ ": " ++ f.cause)))) ∧
      (flt w (.mkdirAll (filepathDir path) 0o755) = none →
        flt { w with calls := w.calls ++ [.mkdirAll (filepathDir path) 0o755] }
            (.create path) = none →
        ∀ f, flt { files := (path, []) :: w.files,
                   calls := w.calls ++ [.mkdirAll (filepathDir path) 0o755, .create path] }
            (.copy path reader) = some f →
          (CopyToFile flt w path reader).2 =
              (0, some ("failed writing to file " ++ path ++ ": " ++ f.cause)) ∧
            (CopyToFile flt w path reader).1.calls =
              w.calls ++ [.mkdirAll (filepathDir path) 0o755, .create path, .copy path reader]) ∧
      (flt w (.mkdirAll (filepathDir path) 0o755) = none →
        flt { w with calls := w.calls ++ [.mkdirAll (filepathDir path) 0o755] }
            (.create path) = none →
        flt { files := (path, []) :: w.files,
              calls := w.calls ++ [.mkdirAll (filepathDir path) 0o755, .create path] }
            (.copy path reader) = none →
          (CopyToFile flt w path reader).2 = ((reader.length : Int), none) ∧
            (CopyToFile flt w path reader).1.calls =
              w.calls ++ [.mkdirAll (filepathDir path) 0o755, .create path, .copy path reader] ∧
            fileAt (CopyToFile flt w path reader).1 path = some reader) ∧
      CopyToFile (fun _ _ => none) { files := [], calls := [] } "/foo/bar/baz"
          (stringBytes "test content") =
        ({ files := [("/foo/bar/baz", stringBytes "test content"), ("/foo/bar/baz", [])],
           calls := [.mkdirAll "/foo/bar" 0o755, .create "/foo/bar/baz",
             .copy "/foo/bar/baz" (stringBytes "test content")] },
          (12, none)) := by
  refine ⟨?_, ?_, ?_, ?_, by decide⟩
  · intro f h1
    simp [CopyToFile, safeMkdirAll, osMkdirAll, h1]
  · intro h1 f h2
    simp [CopyToFile, safeMkdirAll, osMkdirAll, osCreate, h1, h2]
  · intro h1 h2 f h3
    simp [CopyToFile, safeMkdirAll, osMkdirAll, osCreate, ioCopy, h1, h2, h3]
  · intro h1 h2 h3
    simp [CopyToFile, safeMkdirAll, osMkdirAll, osCreate, ioCopy, h1, h2, h3, fileAt_cons_self]

theorem CopyToFile_steps_witness :
    CopyToFile (fun _ c => if c = OsCall.create "/foo/bar/baz" then some ⟨"permission denied", 0⟩
          else none) { files := [], calls := [] } "/foo/bar/baz" (stringBytes "test content") =
      ({ files := [], calls := [.mkdirAll (filepathDir "/foo/bar/baz") 0o755, .create "/foo/bar/baz"] },
        (0, some ("failed to create file " ++ "/foo/bar/baz" ++ ": " ++ "permission denied"))) :=
  (CopyToFile_steps (fun _ c => if c = OsCall.create "/foo/bar/baz" then
      some ⟨"permission denied", 0⟩ else none) { files := [], calls := [] } "/foo/bar/baz"
      (stringBytes "test content")).2.1 (by decide) ⟨"permission denied", 0⟩ (by decide)

/-- C10 (as stated) fails where directory creation fails: for `/foo/bar/baz`
the error is `failed to create directory /foo/bar: permission denied`, in
which the path `/foo/bar/baz` does not occur. -/
theorem CopyToFile_mkdir_error_omits_path :
    (CopyToFile (fun _ c => if c = OsCall.mkdirAll "/foo/bar" 0o755 then
          some ⟨"permission denied", 0⟩ else none)
        { files := [], calls := [] } "/foo/bar/baz" (stringBytes "test content")).2 =
        (0, some "failed to create directory /foo/bar: permission denied") ∧
      ¬ ("/foo/bar/baz".data <:+: "failed to create directory /foo/bar: permission denied".data) := by
  decide

/-! ## Steps, schedules and lists -/

theorem step_move (r : runner) (env : Env) (st : State) (a : Action) :
    step r env st a = st ∨ Move r env st (step r env st a) := by
  cases a with
  | acquire =>
    simp only [step]
    split
    · rename_i h; exact Or.inr (Move.acquire h.1 h.2.1 h.2.2.1 h.2.2.2)
    · exact Or.inl rfl
  | spawn =>
    simp only [step]
    split
    · exact Or.inl rfl
    · rename_i obj rest hp
      split
      · exact Or.inl rfl
      · rename_i h
        refine Or.inr (Move.spawn obj rest hp ?_)
        intro hC
        by_contra hne
        exact h ⟨hC, by simpa using hne⟩
  | work i =>
    simp only [step]
    split
    · exact Or.inl rfl
    · rename_i t hi
      split
      · rename_i hs; exact Or.inr (Move.work i t hi hs)
      · exact Or.inl rfl
  | recv i =>
    simp only [step]
    split
    · rename_i t hr hi
      split
      · rename_i hs
        right
        have := @Move.recv r env st i t hr hi hs
        cases hres : t.res with
        | some err => simpa [hres] using this
        | none =>
          simp only [hres] at this ⊢
          split
          · rename_i h0; simpa [h0] using this
          · rename_i h0; simpa [h0, hr] using this
      · exact Or.inl rfl
    · exact Or.inl rfl
  | release i =>
    simp only [step]
    split
    · exact Or.inl rfl
    · rename_i t hi
      split
      · rename_i hs; exact Or.inr (Move.release i t hi hs)
      · exact Or.inl rfl

theorem exec_append (r : runner) (env : Env) (st : State) (s1 s2 : List Action) :
    exec r env st (s1 ++ s2) = exec r env (exec r env st s1) s2 := by
  simp [exec, List.foldl_append]

/-- An invariant of the effective steps that holds at the start holds after
every schedule. -/
theorem exec_invariant (r : runner) (env : Env) (P : State → Prop)
    (hstep : ∀ st st1, P st → Move r env st st1 → P st1) :
    ∀ (sched : List Action) (st : State), P st → P (exec r env st sched) := by
  intro sched
  induction sched with
  | nil => intro st h; exact h
  | cons a rest ih =>
    intro st h
    show P (exec r env (step r env st a) rest)
    apply ih
    rcases step_move r env st a with h1 | h1
    · rw [h1]; exact h
    · exact hstep _ _ h h1

theorem countP_set {α : Type} (p : α → Bool) (b : α) :
    ∀ (l : List α) (i : Nat) (a : α), l[i]? = some a →
      (l.set i b).countP p + (if p a then 1 else 0) = l.countP p + (if p b then 1 else 0) := by
  intro l
  induction l with
  | nil => intro i a h; simp at h
  | cons x xs ih =>
    intro i a h
    cases i with
    | zero =>
      simp only [List.getElem?_cons_zero, Option.some.injEq] at h
      subst h
      simp only [List.set_cons_zero, List.countP_cons]
      omega
    | succ j =>
      simp only [List.getElem?_cons_succ] at h
      have := ih j a h
      simp only [List.set_cons_succ, List.countP_cons]
      omega

theorem mem_of_getElem? {α : Type} {l : List α} {i : Nat} {a : α} (h : l[i]? = some a) :
    a ∈ l := by
  rw [List.mem_iff_getElem?]; exact ⟨i, h⟩

theorem map_set_same {α β : Type} (f : α → β) (b : α) :
    ∀ (l : List α) (i : Nat) (a : α), l[i]? = some a → f b = f a →
      (l.set i b).map f = l.map f := by
  intro l
  induction l with
  | nil => intro i a h; simp at h
  | cons x xs ih =>
    intro i a h hf
    cases i with
    | zero =>
      simp only [List.getElem?_cons_zero, Option.some.injEq] at h
      subst h
      simp [hf]
    | succ j =>
      simp only [List.getElem?_cons_succ] at h
      simp [ih j a h hf]

theorem filterMap_set_same {α β : Type} (g : α → Option β) (b : α) :
    ∀ (l : List α) (i : Nat) (a : α), l[i]? = some a → g b = g a →
      (l.set i b).filterMap g = l.filterMap g := by
  intro l
  induction l with
  | nil => intro i a h; simp at h
  | cons x xs ih =>
    intro i a h hf
    cases i with
    | zero =>
      simp only [List.getElem?_cons_zero, Option.some.injEq] at h
      subst h
      simp [List.filterMap_cons, hf]
    | succ j =>
      simp only [List.getElem?_cons_succ] at h
      simp [List.filterMap_cons, ih j a h hf]

theorem filterMap_set_perm {α β : Type} (g : α → Option β) (b : α) (c : β) :
    ∀ (l : List α) (i : Nat) (a : α), l[i]? = some a → g a = none → g b = some c →
      ((l.set i b).filterMap g).Perm (l.filterMap g ++ [c]) := by
  intro l
  induction l with
  | nil => intro i a h; simp at h
  | cons x xs ih =>
    intro i a h ha hb
    cases i with
    | zero =>
      simp only [List.getElem?_cons_zero, Option.some.injEq] at h
      subst h
      simp only [List.set_cons_zero, List.filterMap_cons, ha, hb]
      exact (List.perm_append_singleton c _).symm
    | succ j =>
      simp only [List.getElem?_cons_succ] at h
      have := ih j a h ha hb
      simp only [List.set_cons_succ, List.filterMap_cons]
      cases g x with
      | none => exact this
      | some y => exact List.Perm.cons y this

/-! ## The scheduler invariant -/

theorem forall_mem_set {α : Type} {P : α → Prop} {l : List α} {i : Nat} {b : α}
    (h : ∀ t ∈ l, P t) (hb : P b) : ∀ t ∈ l.set i b, P t := by
  intro t ht
  rcases List.mem_or_eq_of_mem_set ht with h1 | h1
  · exact h t h1
  · rw [h1]; exact hb

theorem mem_set_of_ne {α : Type} {l : List α} {i : Nat} {a b t : α}
    (hi : l[i]? = some a) (ht : t ∈ l) (hne : t ≠ a) : t ∈ l.set i b := by
  rw [List.mem_iff_getElem?] at ht ⊢
  obtain ⟨j, hj⟩ := ht
  refine ⟨j, ?_⟩
  have hji : i ≠ j := by
    rintro rfl
    rw [hi] at hj
    exact hne (Option.some.inj hj).symm
  rw [List.getElem?_set_ne hji]
  exact hj

theorem mem_set_self {α : Type} {l : List α} {i : Nat} {a b : α}
    (hi : l[i]? = some a) : b ∈ l.set i b := by
  rw [List.mem_iff_getElem?]
  refine ⟨i, ?_⟩
  have hlt : i < l.length := by
    rcases List.getElem?_eq_some_iff.1 hi with ⟨h, _⟩
    exact h
  rw [List.getElem?_set_self hlt]

theorem exists_mem_set {α : Type} {P : α → Prop} {l : List α} {i : Nat} {a b : α}
    (hi : l[i]? = some a) (h : ∃ t ∈ l, P t) (hab : P a → P b) : ∃ t ∈ l.set i b, P t := by
  classical
  obtain ⟨t, ht, hP⟩ := h
  by_cases hta : t = a
  · exact ⟨b, mem_set_self hi, hab (hta ▸ hP)⟩
  · exact ⟨t, mem_set_of_ne hi ht hta, hP⟩

theorem SchedInv_start (r : runner) (objects : List ObjectInfo) (w : World) :
    SchedInv r objects (start r objects w) := by
  constructor
  · simp [start]
  · intro _; simp [start, inFlight]
  · intro h; simp only [start]; omega
  · simp [start]
  · simp [start]
  · intro h
    simp only [start] at h ⊢
    by_cases h0 : objects.length = 0
    · by_cases hn : r.notFoundIsError = true <;> simp [h0, hn] at h
    · omega
  · intro h
    simp only [start] at h ⊢
    by_cases h0 : objects.length = 0
    · exact h0
    · simp [h0] at h
  · intro _; simp [start]
  · intro e h
    left
    simp only [start] at h ⊢
    by_cases h0 : objects.length = 0
    · by_cases hn : r.notFoundIsError = true
      · simp only [h0, hn, and_self, if_true, Option.some.injEq] at h
        exact ⟨hn, List.length_eq_zero.1 h0, h.symm, trivial⟩
      · simp [h0, hn] at h
    · simp [h0] at h

theorem SchedInv_step (r : runner) (env : Env) (objects : List ObjectInfo) (st st1 : State)
    (inv : SchedInv r objects st) (hm : Move r env st st1) : SchedInv r objects st1 := by
  obtain ⟨hdis, hsem, hbound, hmain, hrecv, hpos, hnil, hsofar, herr⟩ := inv
  cases hm with
  | acquire hC hp ha hs =>
    refine ⟨hdis, ?_, ?_, hmain, hrecv, hpos, hnil, hsofar, herr⟩
    · intro _
      have := hsem hC
      simp only [ha, inFlight] at this ⊢
      simp only [if_true, Bool.false_eq_true, if_false] at this ⊢
      omega
    · intro _; push_cast; omega
  | spawn obj rest hp ha =>
    refine ⟨?_, ?_, hbound, ?_, ?_, hpos, hnil, ?_, ?_⟩
    · simp only [List.map_append, List.map_cons, List.map_nil, List.append_assoc,
        List.singleton_append]
      rw [← hp]; exact hdis
    · intro hC
      have := hsem hC
      simp only [ha hC, inFlight, if_true] at this
      have h1 : List.countP Task.inFlight
          [({ obj := obj, stage := .running, res := none } : Task)] = 1 := rfl
      show st.sem = (if false = true then 1 else 0) + List.countP Task.inFlight (st.tasks ++ _)
      rw [List.countP_append, h1]
      simp only [Bool.false_eq_true, if_false]
      omega
    · have h1 : List.countP Task.delivered
          [({ obj := obj, stage := .running, res := none } : Task)] = 0 := rfl
      show st.mainLeft + List.countP Task.delivered (st.tasks ++ _) = _
      rw [List.countP_append, h1]
      exact hmain
    · have h1 : List.countP Task.delivered
          [({ obj := obj, stage := .running, res := none } : Task)] = 0 := rfl
      show st.received.length = List.countP Task.delivered (st.tasks ++ _)
      rw [List.countP_append, h1]
      exact hrecv
    · intro h
      obtain ⟨h1, h2⟩ := hsofar h
      refine ⟨?_, h2⟩
      intro t ht hd
      rcases List.mem_append.1 ht with ht | ht
      · exact h1 t ht hd
      · simp only [List.mem_singleton] at ht
        subst ht
        rfl
    · intro e h
      rcases herr e h with h1 | ⟨⟨t, ht, hd⟩, hk⟩
      · exact Or.inl h1
      · exact Or.inr ⟨⟨t, List.mem_append_left _ ht, hd⟩, hk⟩
  | work i t hi hs =>
    have hdel : Task.delivered t = false := by simp [Task.delivered, hs]
    have hfl : Task.inFlight t = true := by simp [Task.inFlight, hs]
    have cd := countP_set Task.delivered
      { t with stage := .sending, res := (taskBody r env st.eff t.obj).2 } st.tasks i t hi
    have cf := countP_set Task.inFlight
      { t with stage := .sending, res := (taskBody r env st.eff t.obj).2 } st.tasks i t hi
    have hdel1 : Task.delivered
        { t with stage := .sending, res := (taskBody r env st.eff t.obj).2 } = false := rfl
    have hfl1 : Task.inFlight
        { t with stage := .sending, res := (taskBody r env st.eff t.obj).2 } = true := rfl
    rw [hdel, hdel1] at cd
    rw [hfl, hfl1] at cf
    simp only [Bool.false_eq_true, if_false, if_true, Nat.add_zero] at cd cf
    refine ⟨?_, ?_, hbound, ?_, ?_, hpos, hnil, ?_, ?_⟩
    · show List.map Task.obj (st.tasks.set i _) ++ st.pending = objects
      rw [map_set_same Task.obj { t with stage := .sending, res := (taskBody r env st.eff t.obj).2 }
        st.tasks i t hi rfl]
      exact hdis
    · intro hC
      have := hsem hC
      simp only [inFlight] at this ⊢
      show st.sem = _ + List.countP Task.inFlight (st.tasks.set i _)
      omega
    · show st.mainLeft + List.countP Task.delivered (st.tasks.set i _) = _
      omega
    · show st.received.length = List.countP Task.delivered (st.tasks.set i _)
      omega
    · intro h
      obtain ⟨h1, h2⟩ := hsofar h
      refine ⟨?_, h2⟩
      intro x hx hdx
      rcases List.mem_or_eq_of_mem_set hx with hx | hx
      · exact h1 x hx hdx
      · subst hx; simp [Task.delivered] at hdx
    · intro e h
      rcases herr e h with h1 | ⟨hex, hk⟩
      · exact Or.inl h1
      · refine Or.inr ⟨exists_mem_set hi hex ?_, hk⟩
        intro ⟨hd, _⟩
        rw [hdel] at hd; exact absurd hd (by decide)
  | recv i t hr hi hs =>
    have hdel : Task.delivered t = false := by simp [Task.delivered, hs]
    have hfl : Task.inFlight t = true := by simp [Task.inFlight, hs]
    have hdel1 : Task.delivered
        { t with stage := if r.maxConcurrent > 0 then .releasing else .finished } = true := by
      by_cases hC : r.maxConcurrent > 0 <;> simp [Task.delivered, hC]
    have cd := countP_set Task.delivered
      { t with stage := if r.maxConcurrent > 0 then .releasing else .finished } st.tasks i t hi
    rw [hdel, hdel1] at cd
    simp only [Bool.false_eq_true, if_false, if_true, Nat.add_zero] at cd
    have hp := hpos hr
    refine ⟨?_, ?_, hbound, ?_, ?_, ?_, ?_, ?_, ?_⟩
    · show List.map Task.obj (st.tasks.set i _) ++ st.pending = objects
      rw [map_set_same Task.obj
        { t with stage := if r.maxConcurrent > 0 then .releasing else .finished }
        st.tasks i t hi rfl]
      exact hdis
    · intro hC
      have cf := countP_set Task.inFlight
        { t with stage := if r.maxConcurrent > 0 then .releasing else .finished } st.tasks i t hi
      have hfl1 : Task.inFlight
          { t with stage := if r.maxConcurrent > 0 then .releasing else .finished } = true := by
        simp [Task.inFlight, hC]
      rw [hfl, hfl1] at cf
      have := hsem hC
      simp only [inFlight] at this ⊢
      show st.sem = _ + List.countP Task.inFlight (st.tasks.set i _)
      omega
    · show st.mainLeft - 1 + List.countP Task.delivered (st.tasks.set i _) = _
      omega
    · show (st.received ++ [t.res]).length = List.countP Task.delivered (st.tasks.set i _)
      simp only [List.length_append, List.length_cons, List.length_nil]
      omega
    · intro h
      show 0 < st.mainLeft - 1
      change (match t.res with
        | some err => some (some err)
        | none => if st.mainLeft - 1 = 0 then some none else none) = none at h
      cases hres : t.res with
      | some err => simp [hres] at h
      | none =>
        simp only [hres] at h
        by_cases h0 : st.mainLeft - 1 = 0
        · simp [h0] at h
        · omega
    · intro h
      show st.mainLeft - 1 = 0
      change (match t.res with
        | some err => some (some err)
        | none => if st.mainLeft - 1 = 0 then some none else none) = some none at h
      cases hres : t.res with
      | some err => simp [hres] at h
      | none =>
        simp only [hres] at h
        by_cases h0 : st.mainLeft - 1 = 0
        · exact h0
        · simp [h0] at h
    · intro h
      change ∀ e, (match t.res with
        | some err => some (some err)
        | none => if st.mainLeft - 1 = 0 then some none else none) ≠ some (some e) at h
      have hres : t.res = none := by
        cases hres : t.res with
        | some err => exact absurd (by rw [hres]) (h err)
        | none => rfl
      obtain ⟨h1, h2⟩ := hsofar (by intro e; rw [hr]; simp)
      constructor
      · show ∀ x ∈ st.tasks.set i _, _
        exact forall_mem_set h1 (fun _ => hres)
      · show ∀ x ∈ st.received ++ [t.res], x = none
        intro x hx
        rcases List.mem_append.1 hx with hx | hx
        · exact h2 x hx
        · simp only [List.mem_singleton] at hx
          rw [hx, hres]
    · intro e h
      change (match t.res with
        | some err => some (some err)
        | none => if st.mainLeft - 1 = 0 then some none else none) = some (some e) at h
      have hres : t.res = some e := by
        cases hres : t.res with
        | some err => simpa [hres] using h
        | none =>
          simp only [hres] at h
          by_cases h0 : st.mainLeft - 1 = 0 <;> simp [h0] at h
      obtain ⟨_, h2⟩ := hsofar (by intro e; rw [hr]; simp)
      right
      constructor
      · exact ⟨_, mem_set_self hi, hdel1, hres⟩
      · refine ⟨st.received.length, ?_⟩
        show st.received ++ [t.res] = _
        rw [hres, ← List.eq_replicate_of_mem h2]
  | release i t hi hs =>
    have hdel : Task.delivered t = true := by simp [Task.delivered, hs]
    have hfl : Task.inFlight t = true := by simp [Task.inFlight, hs]
    have cd := countP_set Task.delivered { t with stage := .finished } st.tasks i t hi
    have cf := countP_set Task.inFlight { t with stage := .finished } st.tasks i t hi
    have hdel1 : Task.delivered { t with stage := .finished } = true := by simp [Task.delivered]
    have hfl1 : Task.inFlight { t with stage := .finished } = false := by simp [Task.inFlight]
    rw [hdel, hdel1] at cd
    rw [hfl, hfl1] at cf
    simp only [Bool.false_eq_true, if_false, if_true, Nat.add_zero] at cd cf
    refine ⟨?_, ?_, ?_, ?_, ?_, hpos, hnil, ?_, ?_⟩
    · show List.map Task.obj (st.tasks.set i _) ++ st.pending = objects
      rw [map_set_same Task.obj { t with stage := .finished } st.tasks i t hi rfl]
      exact hdis
    · intro hC
      have := hsem hC
      simp only [inFlight] at this ⊢
      show st.sem - 1 = _ + List.countP Task.inFlight (st.tasks.set i _)
      omega
    · intro hC
      have := hbound hC
      show ((st.sem - 1 : Nat) : Int) ≤ _
      omega
    · show st.mainLeft + List.countP Task.delivered (st.tasks.set i _) = _
      omega
    · show st.received.length = List.countP Task.delivered (st.tasks.set i _)
      omega
    · intro h
      obtain ⟨h1, h2⟩ := hsofar h
      refine ⟨?_, h2⟩
      show ∀ x ∈ st.tasks.set i _, _
      exact forall_mem_set h1 (fun _ => h1 t (mem_of_getElem? hi) hdel)
    · intro e h
      rcases herr e h with h1 | ⟨hex, hk⟩
      · exact Or.inl h1
      · refine Or.inr ⟨exists_mem_set hi hex ?_, hk⟩
        intro ⟨_, hr⟩
        exact ⟨hdel1, hr⟩

theorem SchedInv_exec (r : runner) (env : Env) (objects : List ObjectInfo) (w : World)
    (sched : List Action) : SchedInv r objects (exec r env (start r objects w) sched) :=
  exec_invariant r env (SchedInv r objects) (fun st st1 h hm => SchedInv_step r env objects st st1 h hm)
    sched _ (SchedInv_start r objects w)

/-! ## Progress -/

theorem sum_map_set {α : Type} (f : α → Nat) (b : α) :
    ∀ (l : List α) (i : Nat) (a : α), l[i]? = some a →
      ((l.set i b).map f).sum + f a = (l.map f).sum + f b := by
  intro l
  induction l with
  | nil => intro i a h; simp at h
  | cons x xs ih =>
    intro i a h
    cases i with
    | zero =>
      simp only [List.getElem?_cons_zero, Option.some.injEq] at h
      subst h
      simp only [List.set_cons_zero, List.map_cons, List.sum_cons]
      omega
    | succ j =>
      simp only [List.getElem?_cons_succ] at h
      have := ih j a h
      simp only [List.set_cons_succ, List.map_cons, List.sum_cons]
      omega

theorem stepsLeft_decreases (r : runner) (env : Env) (st st1 : State)
    (hm : Move r env st st1) : stepsLeft st1 < stepsLeft st := by
  cases hm with
  | acquire hC hp ha hs =>
    simp only [stepsLeft, ha, if_true, Bool.false_eq_true, if_false]
    omega
  | spawn obj rest hp ha =>
    simp only [stepsLeft, hp, List.length_cons, List.map_append, List.sum_append, List.map_cons,
      List.map_nil, List.sum_cons, List.sum_nil, Stage.weight, Bool.false_eq_true, if_false]
    split <;> omega
  | work i t hi hs =>
    have := sum_map_set (fun t : Task => t.stage.weight)
      { t with stage := .sending, res := (taskBody r env st.eff t.obj).2 } st.tasks i t hi
    have hw : t.stage.weight = 3 := by rw [hs]; rfl
    have hw1 : Stage.sending.weight = 2 := rfl
    dsimp only at this
    rw [hw, hw1] at this
    simp only [stepsLeft]
    omega
  | recv i t hr hi hs =>
    have := sum_map_set (fun t : Task => t.stage.weight)
      { t with stage := if r.maxConcurrent > 0 then .releasing else .finished } st.tasks i t hi
    have hw0 : t.stage.weight = 2 := by rw [hs]; rfl
    have hw : (if r.maxConcurrent > 0 then Stage.releasing else Stage.finished).weight ≤ 1 := by
      split <;> simp [Stage.weight]
    dsimp only at this
    rw [hw0] at this
    simp only [stepsLeft]
    omega
  | release i t hi hs =>
    have := sum_map_set (fun t : Task => t.stage.weight)
      { t with stage := .finished } st.tasks i t hi
    have hw : t.stage.weight = 1 := by rw [hs]; rfl
    have hw1 : Stage.finished.weight = 0 := rfl
    dsimp only at this
    rw [hw, hw1] at this
    simp only [stepsLeft]
    omega

theorem progress (r : runner) (env : Env) (objects : List ObjectInfo) (st : State)
    (inv : SchedInv r objects st) (hr : st.result = none) :
    ∃ a, Move r env st (step r env st a) := by
  by_cases h1 : ∃ (i : Nat) (t : Task), st.tasks[i]? = some t ∧ t.stage = .running
  · obtain ⟨i, t, hi, hs⟩ := h1
    refine ⟨.work i, ?_⟩
    simp only [step, hi, hs, if_true]
    exact Move.work i t hi hs
  by_cases h2 : ∃ (i : Nat) (t : Task), st.tasks[i]? = some t ∧ t.stage = .sending
  · obtain ⟨i, t, hi, hs⟩ := h2
    refine ⟨.recv i, ?_⟩
    rcases step_move r env st (.recv i) with h | h
    · exfalso
      have hlen := congrArg (fun s : State => s.received.length) h
      simp only [step, hr, hi, hs, if_true] at hlen
      cases hres : t.res with
      | some err => simp [hres] at hlen
      | none =>
        simp only [hres] at hlen
        split at hlen <;> simp at hlen
    · exact h
  by_cases h3 : ∃ (i : Nat) (t : Task), st.tasks[i]? = some t ∧ t.stage = .releasing
  · obtain ⟨i, t, hi, hs⟩ := h3
    refine ⟨.release i, ?_⟩
    simp only [step, hi, hs, if_true]
    exact Move.release i t hi hs
  have hfin : ∀ t ∈ st.tasks, t.stage = .finished := by
    intro t ht
    obtain ⟨i, hi⟩ := List.mem_iff_getElem?.1 ht
    cases hs : t.stage with
    | running => exact absurd ⟨i, t, hi, hs⟩ h1
    | sending => exact absurd ⟨i, t, hi, hs⟩ h2
    | releasing => exact absurd ⟨i, t, hi, hs⟩ h3
    | finished => rfl
  have hdel : st.tasks.countP Task.delivered = st.tasks.length := by
    rw [List.countP_eq_length]
    intro t ht
    simp [Task.delivered, hfin t ht]
  have hfl : inFlight st = 0 := by
    simp only [inFlight, List.countP_eq_zero]
    intro t ht
    simp [Task.inFlight, hfin t ht]
  have hpos := inv.mainPos hr
  have hmain := inv.mainCount
  have hlen : st.tasks.length + st.pending.length = objects.length := by
    have := congrArg List.length inv.dispatched
    simpa using this
  cases hp : st.pending with
  | nil => rw [hp] at hlen; simp at hlen; omega
  | cons obj rest =>
    by_cases hC : r.maxConcurrent > 0
    · cases ha : st.acquired with
      | true =>
        refine ⟨.spawn, ?_⟩
        have hno : ¬ (r.maxConcurrent > 0 ∧ st.acquired = false) := by simp [ha]
        simp only [step, hp, hno, if_false]
        exact Move.spawn obj rest hp (fun _ => ha)
      | false =>
        refine ⟨.acquire, ?_⟩
        have hsem := inv.semCount hC
        rw [hfl, ha] at hsem
        simp only [Bool.false_eq_true, if_false, Nat.add_zero] at hsem
        have hne : st.pending ≠ [] := by rw [hp]; simp
        have hlt : (st.sem : Int) < r.maxConcurrent := by rw [hsem]; simpa using hC
        have hyes : r.maxConcurrent > 0 ∧ st.pending ≠ [] ∧ st.acquired = false ∧
            (st.sem : Int) < r.maxConcurrent := ⟨hC, hne, ha, hlt⟩
        have hst : step r env st .acquire = { st with sem := st.sem + 1, acquired := true } := by
          show (if r.maxConcurrent > 0 ∧ st.pending ≠ [] ∧ st.acquired = false ∧
            (st.sem : Int) < r.maxConcurrent then _ else _) = _
          rw [if_pos hyes]
        rw [hst]
        exact Move.acquire hC hne ha hlt
    · refine ⟨.spawn, ?_⟩
      have hno : ¬ (r.maxConcurrent > 0 ∧ st.acquired = false) := fun h => hC h.1
      simp only [step, hp, hno, if_false]
      exact Move.spawn obj rest hp (fun h => absurd h hC)

theorem can_return (r : runner) (env : Env) (objects : List ObjectInfo) :
    ∀ (n : Nat) (st : State), stepsLeft st ≤ n → SchedInv r objects st →
      ∃ more, (exec r env st more).result ≠ none := by
  intro n
  induction n with
  | zero =>
    intro st hn inv
    by_cases hr : st.result = none
    · obtain ⟨a, hm⟩ := progress r env objects st inv hr
      have := stepsLeft_decreases r env _ _ hm
      omega
    · exact ⟨[], hr⟩
  | succ k ih =>
    intro st hn inv
    by_cases hr : st.result = none
    · obtain ⟨a, hm⟩ := progress r env objects st inv hr
      have hlt := stepsLeft_decreases r env _ _ hm
      obtain ⟨more, hmore⟩ := ih (step r env st a) (by omega)
        (SchedInv_step r env objects _ _ inv hm)
      exact ⟨a :: more, hmore⟩
    · exact ⟨[], hr⟩

/-! ## Dry run (C7) -/

theorem delivered_worked (t : Task) (h : t.delivered = true) : t.worked = true := by
  cases hs : t.stage <;> simp [Task.delivered, Task.worked, hs] at h ⊢

theorem returned_nil (r : runner) (objects : List ObjectInfo) (st : State)
    (inv : SchedInv r objects st) (h : st.result = some none) :
    st.received = List.replicate objects.length none ∧
      st.tasks.map Task.obj = objects ∧
      ∀ t ∈ st.tasks, t.delivered = true ∧ t.res = none := by
  have h0 := inv.nilDone h
  have hmain := inv.mainCount
  have hlen : st.tasks.length + st.pending.length = objects.length := by
    have := congrArg List.length inv.dispatched
    simpa using this
  have hle : st.tasks.countP Task.delivered ≤ st.tasks.length := List.countP_le_length _
  have hall : st.tasks.countP Task.delivered = st.tasks.length := by omega
  have hpend : st.pending = [] := List.length_eq_zero.1 (by omega)
  obtain ⟨h1, h2⟩ := inv.nilSoFar (by intro e; rw [h]; simp)
  refine ⟨?_, ?_, ?_⟩
  · have hl : st.received.length = objects.length := by rw [inv.recvCount]; omega
    rw [← hl]
    exact List.eq_replicate_of_mem h2
  · have := inv.dispatched
    rw [hpend, List.append_nil] at this
    exact this
  · intro t ht
    have hd : t.delivered = true := (List.countP_eq_length.1 hall) t ht
    exact ⟨hd, h1 t ht hd⟩

theorem DryInv_step (r : runner) (env : Env) (w : World) (hdry : r.dryRun = true)
    (st st1 : State) (inv : DryInv r w st) (hm : Move r env st st1) : DryInv r w st1 := by
  obtain ⟨hreads, hcopies, hworld, hout, hno⟩ := inv
  cases hm with
  | acquire hC hp ha hs => exact ⟨hreads, hcopies, hworld, hout, hno⟩
  | spawn obj rest hp ha =>
    refine ⟨hreads, hcopies, hworld, ?_, ?_⟩
    · show st.eff.stdout.Perm (List.filterMap (dryLine r) (st.tasks ++ _))
      rw [List.filterMap_append]
      have : List.filterMap (dryLine r)
          [({ obj := obj, stage := .running, res := none } : Task)] = [] := rfl
      rw [this, List.append_nil]
      exact hout
    · intro t ht
      rcases List.mem_append.1 ht with ht | ht
      · exact hno t ht
      · simp only [List.mem_singleton] at ht
        subst ht; rfl
  | work i t hi hs =>
    have hbody : taskBody r env st.eff t.obj =
        ({ st.eff with stdout := st.eff.stdout ++ [printObject r t.obj.Name t.obj.Size] },
          none) := by
      simp [taskBody, hdry]
    rw [hbody]
    refine ⟨hreads, hcopies, hworld, ?_, ?_⟩
    · show (st.eff.stdout ++ [printObject r t.obj.Name t.obj.Size]).Perm
        (List.filterMap (dryLine r) (st.tasks.set i _))
      have ha : dryLine r t = none := by simp [dryLine, Task.worked, hs]
      have hb : dryLine r { t with stage := .sending, res := (none : GoError) } =
          some (printObject r t.obj.Name t.obj.Size) := by
        simp [dryLine, Task.worked]
      exact (List.Perm.append_right _ hout).trans
        (filterMap_set_perm (dryLine r) _ _ st.tasks i t hi ha hb).symm
    · show ∀ x ∈ st.tasks.set i _, _
      exact forall_mem_set hno rfl
  | recv i t hr hi hs =>
    refine ⟨hreads, hcopies, hworld, ?_, ?_⟩
    · show st.eff.stdout.Perm (List.filterMap (dryLine r) (st.tasks.set i _))
      rw [filterMap_set_same (dryLine r)
        { t with stage := if r.maxConcurrent > 0 then .releasing else .finished }
        st.tasks i t hi (by
          by_cases hC : r.maxConcurrent > 0 <;> simp [dryLine, Task.worked, hs, hC])]
      exact hout
    · show ∀ x ∈ st.tasks.set i _, _
      exact forall_mem_set hno (hno t (mem_of_getElem? hi))
  | release i t hi hs =>
    refine ⟨hreads, hcopies, hworld, ?_, ?_⟩
    · show st.eff.stdout.Perm (List.filterMap (dryLine r) (st.tasks.set i _))
      rw [filterMap_set_same (dryLine r) { t with stage := .finished }
        st.tasks i t hi (by simp [dryLine, Task.worked, hs])]
      exact hout
    · show ∀ x ∈ st.tasks.set i _, _
      exact forall_mem_set hno (hno t (mem_of_getElem? hi))

theorem filterMap_dryLine (r : runner) (l : List Task) :
    l.filterMap (dryLine r) =
      (l.filter Task.worked).map (fun t => printObject r t.obj.Name t.obj.Size) := by
  induction l with
  | nil => rfl
  | cons t ts ih =>
    by_cases hw : t.worked = true
    · simp [List.filterMap_cons, List.filter_cons, dryLine, hw, ih]
    · simp [List.filterMap_cons, List.filter_cons, dryLine, hw, ih]

/-- C7: in a run with `dryRun` set, after every schedule, `ReadObject`
and `CopyToFile` have not been called and the file system is as it was
(no file written, no call made); the lines written are, up to order, those
`printObject` forms from the name and the declared size of each
descriptor whose goroutine is through its body, which is every descriptor
of the batch once `run` has returned `nil`; with `verbose` set the line
shows that size. -/
theorem dryRun_no_read_no_copy (r : runner) (env : Env) (objects : List ObjectInfo)
    (w : World) (sched : List Action) (hdry : r.dryRun = true) :
    (exec r env (start r objects w) sched).eff.reads = [] ∧
      (exec r env (start r objects w) sched).eff.copies = [] ∧
      (exec r env (start r objects w) sched).eff.world = w ∧
      (exec r env (start r objects w) sched).eff.stdout.Perm
        (((exec r env (start r objects w) sched).tasks.filter Task.worked).map
          (fun t => printObject r t.obj.Name t.obj.Size)) ∧
      ((exec r env (start r objects w) sched).result = some none →
        (exec r env (start r objects w) sched).eff.stdout.Perm
          (objects.map (fun o => printObject r o.Name o.Size))) ∧
      (r.verbose = true → ∀ o : ObjectInfo,
        printObject r o.Name o.Size =
          o.Name ++ " --> " ++ getPathForObject r o.Name ++
            " (size=" ++ toString o.Size ++ ")\n") := by
  have inv := SchedInv_exec r env objects w sched
  have dinv : DryInv r w (exec r env (start r objects w) sched) :=
    exec_invariant r env (DryInv r w) (DryInv_step r env w hdry) sched _
      ⟨rfl, rfl, rfl, List.Perm.refl _, by simp [start]⟩
  generalize exec r env (start r objects w) sched = st at inv dinv ⊢
  have hout := dinv.stdout
  rw [filterMap_dryLine] at hout
  refine ⟨dinv.reads, dinv.copies, dinv.world, hout, ?_, ?_⟩
  · intro h
    obtain ⟨_, hobj, hall⟩ := returned_nil r objects st inv h
    have hf : st.tasks.filter Task.worked = st.tasks := by
      rw [List.filter_eq_self]
      intro t ht
      exact delivered_worked t (hall t ht).1
    rw [hf] at hout
    have : objects.map (fun o => printObject r o.Name o.Size) =
        st.tasks.map (fun t => printObject r t.obj.Name t.obj.Size) := by
      rw [← hobj, List.map_map]; rfl
    rw [this]
    exact hout
  · intro hv o
    simp [printObject, hv]

theorem dryRun_no_read_no_copy_witness :
    (exec (testRunner true 8 3) (osEnv testStore (fun _ _ => none))
        (start (testRunner true 8 3) testObjects ⟨[], []⟩)
        [.acquire, .spawn, .acquire, .spawn, .work 1, .acquire, .spawn, .work 0, .recv 1,
          .work 2, .recv 2, .recv 0]).eff.copies = [] ∧
      (exec (testRunner true 8 3) (osEnv testStore (fun _ _ => none))
        (start (testRunner true 8 3) testObjects ⟨[], []⟩)
        [.acquire, .spawn, .acquire, .spawn, .work 1, .acquire, .spawn, .work 0, .recv 1,
          .work 2, .recv 2, .recv 0]).eff.stdout.Perm
        (testObjects.map (fun o => printObject (testRunner true 8 3) o.Name o.Size)) := by
  have h := dryRun_no_read_no_copy (testRunner true 8 3) (osEnv testStore (fun _ _ => none))
    testObjects ⟨[], []⟩
    [.acquire, .spawn, .acquire, .spawn, .work 1, .acquire, .spawn, .work 0, .recv 1,
      .work 2, .recv 2, .recv 0] rfl
  exact ⟨h.2.1, h.2.2.2.2.1 (by decide!)⟩

/-! ## What `run` returns (C8) -/

/-- C8 (as amended): for a batch that passes the not-found check (it is
non-empty or `notFoundIsError` is unset), after every schedule: if `run`
has returned `nil`, one `nil` per descriptor has been received and every
goroutine of the batch has delivered `nil`; once `run` has returned, it
has returned `nil` exactly when no goroutine's body produced an error; an
error it has returned is the first non-`nil` value received, produced by
the body of one of the goroutines; and whatever has happened so far, the
run can be continued until `run` returns. -/
theorem run_result (r : runner) (env : Env) (objects : List ObjectInfo) (w : World)
    (sched : List Action) (hne : ¬ (r.notFoundIsError = true ∧ objects = [])) :
    ((exec r env (start r objects w) sched).result = some none →
        (exec r env (start r objects w) sched).received =
            List.replicate objects.length none ∧
          (exec r env (start r objects w) sched).tasks.map Task.obj = objects ∧
          ∀ t ∈ (exec r env (start r objects w) sched).tasks,
            t.delivered = true ∧ t.res = none) ∧
      ((exec r env (start r objects w) sched).result ≠ none →
        ((exec r env (start r objects w) sched).result = some none ↔
          ∀ t ∈ (exec r env (start r objects w) sched).tasks,
            t.worked = true → t.res = none)) ∧
      (∀ e, (exec r env (start r objects w) sched).result = some (some e) →
        (∃ k, (exec r env (start r objects w) sched).received =
            List.replicate k none ++ [some e]) ∧
          ∃ t ∈ (exec r env (start r objects w) sched).tasks,
            t.worked = true ∧ t.res = some e) ∧
      ∃ more, (exec r env (exec r env (start r objects w) sched) more).result ≠ none := by
  have inv := SchedInv_exec r env objects w sched
  generalize exec r env (start r objects w) sched = st at inv ⊢
  have hnil := returned_nil r objects st inv
  have herr : ∀ e, st.result = some (some e) →
      (∃ k, st.received = List.replicate k none ++ [some e]) ∧
        ∃ t ∈ st.tasks, t.worked = true ∧ t.res = some e := by
    intro e h
    rcases inv.errFrom e h with h1 | ⟨⟨t, ht, hd, hres⟩, hk⟩
    · exact absurd ⟨h1.1, h1.2.1⟩ hne
    · exact ⟨hk, t, ht, delivered_worked t hd, hres⟩
  refine ⟨hnil, ?_, herr, can_return r env objects _ st (le_refl _) inv⟩
  intro hret
  constructor
  · intro h t ht _
    exact ((hnil h).2.2 t ht).2
  · intro hall
    cases hres : st.result with
    | none => exact absurd hres hret
    | some x =>
      cases x with
      | none => rfl
      | some e =>
        obtain ⟨_, t, ht, hw, hr⟩ := herr e hres
        have := hall t ht hw
        rw [hr] at this
        exact absurd this (by simp)

theorem run_result_witness :
    (∃ k, (exec (testRunner false 1 3) (osEnv testStore (fun _ _ => none))
          (start (testRunner false 1 3)
            (testObjects ++ [{ Name := "prefix/missing", Size := 1 }]) ⟨[], []⟩)
          (serialSchedule 0 4)).received =
        List.replicate k none ++
          [some "failed to create new reader for prefix/missing: unexpected bucketName/objectName: bucket/prefix/missing"]) ∧
      ∃ t ∈ (exec (testRunner false 1 3) (osEnv testStore (fun _ _ => none))
          (start (testRunner false 1 3)
            (testObjects ++ [{ Name := "prefix/missing", Size := 1 }]) ⟨[], []⟩)
          (serialSchedule 0 4)).tasks,
        t.worked = true ∧
          t.res = some "failed to create new reader for prefix/missing: unexpected bucketName/objectName: bucket/prefix/missing" := by
  have hne : ¬ ((testRunner false 1 3).notFoundIsError = true ∧
      testObjects ++ [{ Name := "prefix/missing", Size := 1 }] = []) := by decide
  have hres : (exec (testRunner false 1 3) (osEnv testStore (fun _ _ => none))
      (start (testRunner false 1 3)
        (testObjects ++ [{ Name := "prefix/missing", Size := 1 }]) ⟨[], []⟩)
      (serialSchedule 0 4)).result =
      some (some "failed to create new reader for prefix/missing: unexpected bucketName/objectName: bucket/prefix/missing") := by
    decide!
  exact (run_result _ _ _ _ _ hne).2.2.1 _ hres

/-- C8 (as stated) fails on the empty batch with `notFoundIsError` set:
`run` returns the error `no objects found` although there is no goroutine,
so none whose body produced an error, and nothing has been received. -/
theorem run_empty_batch_returns_error :
    (exec { testRunner false 8 1000 with notFoundIsError := true }
        (osEnv testStore (fun _ _ => none))
        (start { testRunner false 8 1000 with notFoundIsError := true } [] ⟨[], []⟩)
        []).result = some (some "no objects found") ∧
      (exec { testRunner false 8 1000 with notFoundIsError := true }
        (osEnv testStore (fun _ _ => none))
        (start { testRunner false 8 1000 with notFoundIsError := true } [] ⟨[], []⟩)
        []).tasks = [] ∧
      (exec { testRunner false 8 1000 with notFoundIsError := true }
        (osEnv testStore (fun _ _ => none))
        (start { testRunner false 8 1000 with notFoundIsError := true } [] ⟨[], []⟩)
        []).received = [] := by
  refine ⟨rfl, rfl, rfl⟩

/-! ## The concurrency cap (C9) -/

theorem spawn_ungated (r : runner) (env : Env) (st : State) (obj : ObjectInfo)
    (rest : List ObjectInfo) (hC : r.maxConcurrent = 0) (hp : st.pending = obj :: rest) :
    (step r env st .spawn).pending = rest ∧
      inFlight (step r env st .spawn) = inFlight st + 1 := by
  have hno : ¬ (r.maxConcurrent > 0 ∧ st.acquired = false) := by
    intro h; omega
  simp only [step, hp, hno, if_false]
  refine ⟨trivial, ?_⟩
  have h1 : List.countP Task.inFlight
      [({ obj := obj, stage := .running, res := none } : Task)] = 1 := rfl
  show List.countP Task.inFlight (st.tasks ++ _) = _
  rw [List.countP_append, h1]
  rfl

theorem spawn_all (r : runner) (env : Env) (hC : r.maxConcurrent = 0) :
    ∀ (n : Nat) (st : State), st.pending.length = n →
      inFlight (exec r env st (List.replicate n .spawn)) = inFlight st + n := by
  intro n
  induction n with
  | zero => intro st _; rfl
  | succ k ih =>
    intro st hlen
    cases hp : st.pending with
    | nil => rw [hp] at hlen; simp at hlen
    | cons obj rest =>
      obtain ⟨h1, h2⟩ := spawn_ungated r env st obj rest hC hp
      show inFlight (exec r env (step r env st .spawn) (List.replicate k .spawn)) = _
      rw [ih (step r env st .spawn) (by rw [h1]; rw [hp] at hlen; simpa using hlen), h2]
      omega

/-- C9: with `maxConcurrent = C > 0`, after every schedule (every
interleaving of the steps of the dispatcher, the goroutines and the main
loop) at most `C` per-object goroutines are in flight; with `C = 0` the
dispatcher starts the next goroutine whatever the number in flight, and
all goroutines of a batch can be in flight at once. -/
theorem inFlight_le_maxConcurrent (r : runner) (env : Env) (objects : List ObjectInfo)
    (w : World) (sched : List Action) :
    (r.maxConcurrent > 0 →
        (inFlight (exec r env (start r objects w) sched) : Int) ≤ r.maxConcurrent) ∧
      (r.maxConcurrent = 0 → ∀ obj rest,
        (exec r env (start r objects w) sched).pending = obj :: rest →
          (step r env (exec r env (start r objects w) sched) .spawn).pending = rest ∧
            inFlight (step r env (exec r env (start r objects w) sched) .spawn) =
              inFlight (exec r env (start r objects w) sched) + 1) ∧
      (r.maxConcurrent = 0 →
        inFlight (exec r env (start r objects w) (List.replicate objects.length .spawn)) =
          objects.length) := by
  have inv := SchedInv_exec r env objects w sched
  refine ⟨?_, ?_, ?_⟩
  · intro hC
    have h1 := inv.semCount hC
    have h2 := inv.semBound hC
    have h3 : inFlight (exec r env (start r objects w) sched) ≤
        (exec r env (start r objects w) sched).sem := by omega
    omega
  · intro hC obj rest hp
    exact spawn_ungated r env _ obj rest hC hp
  · intro hC
    have := spawn_all r env hC objects.length (start r objects w) rfl
    rw [this]
    simp [start, inFlight]

theorem inFlight_le_maxConcurrent_witness :
    (inFlight (exec ⟨"bucket", "prefix/", "path", false, false, 1, 1000, false, false⟩
        (osEnv (fun _ _ => .ok [1]) (fun _ _ => none))
        (start ⟨"bucket", "prefix/", "path", false, false, 1, 1000, false, false⟩
          [⟨"prefix/foo", 12⟩, ⟨"prefix/bar", 12⟩] ⟨[], []⟩)
        [.acquire, .spawn, .acquire, .spawn, .work 0, .acquire, .spawn]) : Int) ≤ 1 ∧
      inFlight (exec ⟨"bucket", "prefix/", "path", false, false, 0, 1000, false, false⟩
        (osEnv (fun _ _ => .ok [1]) (fun _ _ => none))
        (start ⟨"bucket", "prefix/", "path", false, false, 0, 1000, false, false⟩
          [⟨"prefix/foo", 12⟩, ⟨"prefix/bar", 12⟩] ⟨[], []⟩)
        (List.replicate 2 .spawn)) = 2 :=
  ⟨(inFlight_le_maxConcurrent ⟨"bucket", "prefix/", "path", false, false, 1, 1000, false, false⟩
      (osEnv (fun _ _ => .ok [1]) (fun _ _ => none)) [⟨"prefix/foo", 12⟩, ⟨"prefix/bar", 12⟩]
      ⟨[], []⟩ [.acquire, .spawn, .acquire, .spawn, .work 0, .acquire, .spawn]).1 (by decide),
   (inFlight_le_maxConcurrent ⟨"bucket", "prefix/", "path", false, false, 0, 1000, false, false⟩
      (osEnv (fun _ _ => .ok [1]) (fun _ _ => none)) [⟨"prefix/foo", 12⟩, ⟨"prefix/bar", 12⟩]
      ⟨[], []⟩ []).2.2 (by decide)⟩

/-! ## Downloads -/

theorem LoadInv_restage (r : runner) (env : Env) (st st1 : State) (i : Nat) (a b : Task)
    (inv : LoadInv r env st) (hi : st.tasks[i]? = some a)
    (hobj : b.obj = a.obj) (hres : b.res = a.res) (hw : b.worked = a.worked)
    (htasks : st1.tasks = st.tasks.set i b) (heff : st1.eff = st.eff) :
    LoadInv r env st1 := by
  obtain ⟨hcopies, hread⟩ := inv
  have ha := mem_of_getElem? hi
  refine ⟨?_, ?_⟩
  · rw [heff, htasks, filterMap_set_same (copyArg r env) b st.tasks i a hi
      (by simp only [copyArg, hw, hobj])]
    exact hcopies
  · rw [htasks]
    refine forall_mem_set hread ?_
    intro hwb hrb
    rw [hobj]
    exact hread a ha (by rw [← hw]; exact hwb) (by rw [← hres]; exact hrb)

theorem LoadInv_step (r : runner) (env : Env) (hdry : r.dryRun = false) (st st1 : State)
    (inv : LoadInv r env st) (hm : Move r env st st1) : LoadInv r env st1 := by
  cases hm with
  | acquire hC hp ha hs => exact ⟨inv.copies, inv.readOk⟩
  | spawn obj rest hp ha =>
    obtain ⟨hcopies, hread⟩ := inv
    have hnw : Task.worked ({ obj := obj, stage := .running, res := none } : Task) = false := rfl
    refine ⟨?_, ?_⟩
    · show st.eff.copies.Perm (List.filterMap (copyArg r env) (st.tasks ++ _))
      rw [List.filterMap_append]
      have : List.filterMap (copyArg r env)
          [({ obj := obj, stage := .running, res := none } : Task)] = [] := by
        simp [copyArg, hnw]
      rw [this, List.append_nil]
      exact hcopies
    · intro t ht hwt
      rcases List.mem_append.1 ht with ht | ht
      · exact hread t ht hwt
      · simp only [List.mem_singleton] at ht
        subst ht; rw [hnw] at hwt; exact absurd hwt (by decide)
  | recv i t hr hi hs =>
    exact LoadInv_restage r env st _ i t
      { t with stage := if r.maxConcurrent > 0 then .releasing else .finished } inv hi rfl rfl
      (by
        have h1 : t.worked = true := by simp [Task.worked, hs]
        rw [h1]
        by_cases hC : r.maxConcurrent > 0 <;> simp [Task.worked, hC]) rfl rfl
  | release i t hi hs =>
    exact LoadInv_restage r env st _ i t { t with stage := .finished } inv hi rfl rfl
      (by
        have h1 : t.worked = true := by simp [Task.worked, hs]
        rw [h1]
        simp [Task.worked]) rfl rfl
  | work i t hi hs =>
    obtain ⟨hcopies, hread⟩ := inv
    have hnw : t.worked = false := by simp [Task.worked, hs]
    have hca : copyArg r env t = none := by simp [copyArg, hnw]
    have hbody : taskBody r env st.eff t.obj = downloadObject r env st.eff t.obj.Name := by
      simp [taskBody, hdry]
    rw [hbody]
    cases hrd : env.readObject r.bucketName t.obj.Name with
    | error err =>
      have hdl : downloadObject r env st.eff t.obj.Name =
          ({ st.eff with reads := st.eff.reads ++ [(r.bucketName, t.obj.Name)] },
            some ("failed to create new reader for " ++ t.obj.Name ++ ": " ++ err)) := by
        simp [downloadObject, hrd]
      rw [hdl]
      refine ⟨?_, ?_⟩
      · show st.eff.copies.Perm (List.filterMap (copyArg r env) (st.tasks.set i _))
        rw [filterMap_set_same (copyArg r env) _ st.tasks i t hi
          (by rw [hca]; simp [copyArg, hrd])]
        exact hcopies
      · show ∀ x ∈ st.tasks.set i _, _
        refine forall_mem_set hread ?_
        intro _ h; exact absurd h (by simp)
    | ok reader =>
      have hsb : storeBytes r env t.obj.Name = reader := by simp [storeBytes, hrd]
      cases hcp : env.copyToFile st.eff.world (getPathForObject r t.obj.Name) reader with
      | mk w1 out =>
        obtain ⟨n, cerr⟩ := out
        cases cerr with
        | some err =>
          have hdl : downloadObject r env st.eff t.obj.Name =
              ({ st.eff with
                  reads := st.eff.reads ++ [(r.bucketName, t.obj.Name)]
                  copies := st.eff.copies ++ [(getPathForObject r t.obj.Name, reader)]
                  world := w1 },
                some ("failed writing to file " ++ t.obj.Name ++ ": " ++ err)) := by
            simp [downloadObject, hrd, hcp]
          rw [hdl]
          refine ⟨?_, ?_⟩
          · show (st.eff.copies ++ [(getPathForObject r t.obj.Name, reader)]).Perm
              (List.filterMap (copyArg r env) (st.tasks.set i _))
            exact (List.Perm.append_right _ hcopies).trans
              (filterMap_set_perm (copyArg r env) _ _ st.tasks i t hi hca
                (by simp [copyArg, Task.worked, hrd])).symm
          · show ∀ x ∈ st.tasks.set i _, _
            refine forall_mem_set hread ?_
            intro _ h; exact absurd h (by simp)
        | none =>
          have hdl : downloadObject r env st.eff t.obj.Name =
              ({ st.eff with
                  reads := st.eff.reads ++ [(r.bucketName, t.obj.Name)]
                  copies := st.eff.copies ++ [(getPathForObject r t.obj.Name, reader)]
                  world := w1
                  stdout := st.eff.stdout ++ [printObject r t.obj.Name n] },
                none) := by
            simp [downloadObject, hrd, hcp]
          rw [hdl]
          refine ⟨?_, ?_⟩
          · show (st.eff.copies ++ [(getPathForObject r t.obj.Name, reader)]).Perm
              (List.filterMap (copyArg r env) (st.tasks.set i _))
            exact (List.Perm.append_right _ hcopies).trans
              (filterMap_set_perm (copyArg r env) _ _ st.tasks i t hi hca
                (by simp [copyArg, Task.worked, hrd])).symm
          · show ∀ x ∈ st.tasks.set i _, _
            refine forall_mem_set hread ?_
            intro _ _
            show env.readObject r.bucketName t.obj.Name = _
            rw [hrd, hsb]

theorem LoadInv_exec (r : runner) (env : Env) (objects : List ObjectInfo) (w : World)
    (hdry : r.dryRun = false) (sched : List Action) :
    LoadInv r env (exec r env (start r objects w) sched) :=
  exec_invariant r env (LoadInv r env) (LoadInv_step r env hdry) sched (start r objects w)
    ⟨List.Perm.refl _, by intro t ht; simp [start] at ht⟩

theorem filterMap_eq_map_of_forall {α β : Type} (f : α → Option β) (g : α → β) :
    ∀ l : List α, (∀ x ∈ l, f x = some (g x)) → l.filterMap f = l.map g := by
  intro l
  induction l with
  | nil => intro _; rfl
  | cons x xs ih =>
    intro h
    rw [List.filterMap_cons, h x (List.mem_cons_self _ _), List.map_cons,
      ih (fun y hy => h y (List.mem_cons_of_mem _ hy))]

/-- In a run without `dryRun` that returns `nil`, the goroutines started are
exactly those of the batch, one per descriptor and in order, the store gave
a reader for every descriptor, and the copier has been called exactly once
per descriptor, with the path `getPathForObject(name)` and the bytes the
store provides for that name. -/
theorem run_nil_copies_once (r : runner) (env : Env) (objects : List ObjectInfo)
    (w : World) (sched : List Action) (hdry : r.dryRun = false)
    (hres : (exec r env (start r objects w) sched).result = some none) :
    (exec r env (start r objects w) sched).tasks.map Task.obj = objects ∧
      (exec r env (start r objects w) sched).eff.copies.Perm
        (objects.map (fun o => (getPathForObject r o.Name, storeBytes r env o.Name))) ∧
      ∀ o ∈ objects,
        env.readObject r.bucketName o.Name = .ok (storeBytes r env o.Name) := by
  have inv := SchedInv_exec r env objects w sched
  have linv := LoadInv_exec r env objects w hdry sched
  generalize exec r env (start r objects w) sched = st at inv linv hres ⊢
  obtain ⟨_, hobj, hall⟩ := returned_nil r objects st inv hres
  have hw : ∀ t ∈ st.tasks, t.worked = true := fun t ht => delivered_worked t (hall t ht).1
  have hread : ∀ t ∈ st.tasks,
      env.readObject r.bucketName t.obj.Name = .ok (storeBytes r env t.obj.Name) :=
    fun t ht => linv.readOk t ht (hw t ht) (hall t ht).2
  refine ⟨hobj, ?_, ?_⟩
  · have h1 : st.tasks.filterMap (copyArg r env) =
        st.tasks.map (fun t => (getPathForObject r t.obj.Name, storeBytes r env t.obj.Name)) := by
      apply filterMap_eq_map_of_forall
      intro t ht
      simp only [copyArg, hw t ht, if_true, hread t ht]
    have h2 : objects.map (fun o => (getPathForObject r o.Name, storeBytes r env o.Name)) =
        st.tasks.map (fun t => (getPathForObject r t.obj.Name, storeBytes r env t.obj.Name)) := by
      rw [← hobj, List.map_map]; rfl
    rw [h2, ← h1]
    exact linv.copies
  · intro o ho
    rw [← hobj] at ho
    obtain ⟨t, ht, rfl⟩ := List.mem_map.1 ho
    exact hread t ht

/-! ## Two names, one file (C1) -/

/-- C1: the code breaks the property on a batch with two names mapped to
one path. With prefix `prefix/` and output directory `path`, the names
`prefix/a` and `prefix//a` both map to `path/a`; the serial run of the
shipped copier returns `nil`, having called `CopyToFile` on `path/a`
once per descriptor, and the file at `getPathForObject("prefix/a")` then
holds the bytes of `prefix//a`, not those the store provides for
`prefix/a`. -/
theorem run_nil_colliding_paths :
    (exec (testRunner false 1 3) (osEnv collidingStore (fun _ _ => none))
        (start (testRunner false 1 3)
          [{ Name := "prefix/a", Size := 1 }, { Name := "prefix//a", Size := 1 }] ⟨[], []⟩)
        (serialSchedule 0 2)).result = some none ∧
      getPathForObject (testRunner false 1 3) "prefix/a" = "path/a" ∧
      getPathForObject (testRunner false 1 3) "prefix//a" = "path/a" ∧
      storeBytes (testRunner false 1 3) (osEnv collidingStore (fun _ _ => none)) "prefix/a" =
        [1] ∧
      storeBytes (testRunner false 1 3) (osEnv collidingStore (fun _ _ => none)) "prefix//a" =
        [2] ∧
      (exec (testRunner false 1 3) (osEnv collidingStore (fun _ _ => none))
        (start (testRunner false 1 3)
          [{ Name := "prefix/a", Size := 1 }, { Name := "prefix//a", Size := 1 }] ⟨[], []⟩)
        (serialSchedule 0 2)).eff.copies = [("path/a", [1]), ("path/a", [2])] ∧
      fileAt (exec (testRunner false 1 3) (osEnv collidingStore (fun _ _ => none))
        (start (testRunner false 1 3)
          [{ Name := "prefix/a", Size := 1 }, { Name := "prefix//a", Size := 1 }] ⟨[], []⟩)
        (serialSchedule 0 2)).eff.world (getPathForObject (testRunner false 1 3) "prefix/a") =
        some [2] := by
  decide!

/-! ## The empty batch (C11) -/

theorem step_idle (r : runner) (env : Env) (st : State) (a : Action)
    (hp : st.pending = []) (ht : st.tasks = []) : step r env st a = st := by
  cases a with
  | acquire =>
    have hno : ¬ (r.maxConcurrent > 0 ∧ st.pending ≠ [] ∧ st.acquired = false ∧
        (st.sem : Int) < r.maxConcurrent) := fun h => h.2.1 hp
    show (if r.maxConcurrent > 0 ∧ st.pending ≠ [] ∧ st.acquired = false ∧
        (st.sem : Int) < r.maxConcurrent then _ else _) = _
    rw [if_neg hno]
  | spawn => simp only [step, hp]
  | work i => simp only [step, ht, List.getElem?_nil]
  | recv i =>
    simp only [step, ht, List.getElem?_nil]
    split <;> first | rfl | (rename_i h; simp at h)
  | release i => simp only [step, ht, List.getElem?_nil]

theorem exec_idle (r : runner) (env : Env) (st : State)
    (hp : st.pending = []) (ht : st.tasks = []) :
    ∀ sched : List Action, exec r env st sched = st := by
  intro sched
  induction sched with
  | nil => rfl
  | cons a rest ih =>
    show exec r env (step r env st a) rest = st
    rw [step_idle r env st a hp ht]
    exact ih

theorem configure_three (r : runner) (bucket pre out : String)
    (hc : r.maxConcurrent ≥ 0) (ho : r.maxObjects ≥ 0) :
    configure r [bucket, pre, out] =
      ({ r with bucketName := bucket, prefix_ := normalizePrefix pre, outputDirectory := out },
        none) := by
  have h1 : ¬ r.maxConcurrent < 0 := by omega
  have h2 : ¬ r.maxObjects < 0 := by omega
  simp [configure, exactArgs, h1, h2]

/-- C11: when `run` (without `--version`, with three arguments, caps that
are not negative and a store that connects) walks a store that yields no
objects for the normalised prefix, it returns the error `no objects found`
if `notFoundIsError` is set and `nil` if not, and under every schedule no
object has been read, no file copied, the file system is untouched and no
line has been written. -/
theorem run_no_objects (r : runner) (env : Env) (ses : Session)
    (bucket pre out : String) (w : World) (sched : List Action)
    (hv : r.version = false) (hc : r.maxConcurrent ≥ 0) (ho : r.maxObjects ≥ 0)
    (hconn : ses.connect = none)
    (hitems : (ses.list bucket (normalizePrefix pre)).items = [])
    (hfail : (ses.list bucket (normalizePrefix pre)).fail = none) :
    (r.notFoundIsError = true →
        (run r env ses [bucket, pre, out] w sched).result = some (some "no objects found")) ∧
      (r.notFoundIsError = false →
        (run r env ses [bucket, pre, out] w sched).result = some none) ∧
      (run r env ses [bucket, pre, out] w sched).eff.reads = [] ∧
      (run r env ses [bucket, pre, out] w sched).eff.copies = [] ∧
      (run r env ses [bucket, pre, out] w sched).eff.stdout = [] ∧
      (run r env ses [bucket, pre, out] w sched).eff.world = w := by
  have hget : getObjects
      { r with bucketName := bucket, prefix_ := normalizePrefix pre, outputDirectory := out }
      (ses.list bucket (normalizePrefix pre)) = ([], none) := by
    simp only [getObjects, visitObjects, hitems, hfail, visitLoop]
  have hrun : run r env ses [bucket, pre, out] w sched =
      start { r with bucketName := bucket, prefix_ := normalizePrefix pre,
                     outputDirectory := out } [] w := by
    have hnv : ¬ r.version = true := by rw [hv]; decide
    unfold run
    rw [if_neg hnv]
    simp only [configure_three r bucket pre out hc ho, hconn, hget]
    exact exec_idle _ env (start _ [] w) rfl rfl sched
  rw [hrun]
  refine ⟨?_, ?_, rfl, rfl, rfl, rfl⟩
  · intro h
    simp [start, h]
  · intro h
    simp [start, h]

theorem run_no_objects_witness :
    (run (newRunner true) (osEnv testStore (fun _ _ => none)) emptySession
        ["bucket", "prefix", "path"] ⟨[], []⟩ [.acquire, .spawn, .work 0, .recv 0]).result =
        some (some "no objects found") ∧
      (run (newRunner false) (osEnv testStore (fun _ _ => none)) emptySession
        ["bucket", "prefix", "path"] ⟨[], []⟩ [.acquire, .spawn, .work 0, .recv 0]).result =
        some none ∧
      (run (newRunner false) (osEnv testStore (fun _ _ => none)) emptySession
        ["bucket", "prefix", "path"] ⟨[], []⟩ [.acquire, .spawn, .work 0, .recv 0]).eff.stdout =
        [] :=
  ⟨(run_no_objects (newRunner true) (osEnv testStore (fun _ _ => none)) emptySession
      "bucket" "prefix" "path" ⟨[], []⟩ [.acquire, .spawn, .work 0, .recv 0]
      rfl (by decide) (by decide) rfl rfl rfl).1 rfl,
   (run_no_objects (newRunner false) (osEnv testStore (fun _ _ => none)) emptySession
      "bucket" "prefix" "path" ⟨[], []⟩ [.acquire, .spawn, .work 0, .recv 0]
      rfl (by decide) (by decide) rfl rfl rfl).2.1 rfl,
   (run_no_objects (newRunner false) (osEnv testStore (fun _ _ => none)) emptySession
      "bucket" "prefix" "path" ⟨[], []⟩ [.acquire, .spawn, .work 0, .recv 0]
      rfl (by decide) (by decide) rfl rfl rfl).2.2.2.2.1⟩

/-! ## Leading separators of the prefix (C12) -/

theorem normalizeSpec_slash_cons (pre : String) (t : List Char) (hpre : pre.data = '/' :: t)
    (ht : t ≠ []) :
    (normalizeSpec pre).data = if t.getLast? = some '/' then t else t ++ ['/'] := by
  have hlast : ('/' :: t).getLast? = t.getLast? := by
    cases t with
    | nil => exact absurd rfl ht
    | cons c cs => simp [List.getLast?_cons_cons]
  unfold normalizeSpec
  rw [hpre, hlast]
  by_cases hl : t.getLast? = some '/'
  · have hne : ¬ ('/' :: t = ['/']) := by
      intro h
      exact ht (List.cons.inj h).2
    simp only [hl, if_true, hne, if_false]
  · have hne : ¬ ('/' :: t ++ ['/'] = ['/']) := by
      intro h
      have := congrArg List.length h
      simp at this
    simp only [hl, if_false, hne]
    rfl

/-- C12 (as amended): `configure` normalises the prefix `/` to the empty
string and strips one leading `/`: a prefix `/` followed by a non-empty
rest becomes that rest, with a `/` appended when the rest does not end in
one; so for every prefix that begins with `/` but not with `//` the
normalised prefix does not begin with `/`. -/
theorem configure_strips_one_slash (r : runner) (bucket pre out : String)
    (hc : r.maxConcurrent ≥ 0) (ho : r.maxObjects ≥ 0) :
    (configure r [bucket, "/", out]).1.prefix_ = "" ∧
      (∀ t : List Char, pre.data = '/' :: t → t ≠ [] →
        (configure r [bucket, pre, out]).1.prefix_.data =
          if t.getLast? = some '/' then t else t ++ ['/']) ∧
      (∀ t : List Char, pre.data = '/' :: t → t.head? ≠ some '/' →
        (configure r [bucket, pre, out]).1.prefix_.data.head? ≠ some '/') := by
  have hcfg : ∀ p : String, (configure r [bucket, p, out]).1.prefix_ = normalizeSpec p := by
    intro p
    rw [configure_three r bucket p out hc ho, ← normalizePrefix_eq_spec]
  refine ⟨?_, ?_, ?_⟩
  · rw [hcfg]; decide
  · intro t hpre ht
    rw [hcfg]
    exact normalizeSpec_slash_cons pre t hpre ht
  · intro t hpre hhead
    rw [hcfg]
    cases t with
    | nil =>
      have : pre = "/" := by
        obtain ⟨l⟩ := pre
        simp only at hpre
        rw [hpre]
      rw [this]
      decide
    | cons c cs =>
      rw [normalizeSpec_slash_cons pre (c :: cs) hpre (by simp)]
      have hc1 : c ≠ '/' := by
        intro h
        exact hhead (by rw [h]; rfl)
      split
      · simpa using hc1
      · simpa using hc1

theorem configure_strips_one_slash_witness :
    (configure (newRunner false) ["bucket", "/foo", "path"]).1.prefix_.data =
        (if ['f', 'o', 'o'].getLast? = some '/' then ['f', 'o', 'o']
          else ['f', 'o', 'o'] ++ ['/']) ∧
      (configure (newRunner false) ["bucket", "/foo", "path"]).1.prefix_.data.head? ≠
        some '/' :=
  ⟨(configure_strips_one_slash (newRunner false) "bucket" "/foo" "path"
      (by decide) (by decide)).2.1 ['f', 'o', 'o'] rfl (by decide),
   (configure_strips_one_slash (newRunner false) "bucket" "/foo" "path"
      (by decide) (by decide)).2.2 ['f', 'o', 'o'] rfl (by decide)⟩

/-- C12 (as stated) fails on the prefix `//`: it begins with `/`,
`configure` accepts it, and the normalised prefix is `/`, which begins
with `/`. -/
theorem configure_double_slash_keeps_slash :
    "//".data.head? = some '/' ∧
      (configure (newRunner false) ["bucket", "//", "path"]).2 = none ∧
      (configure (newRunner false) ["bucket", "//", "path"]).1.prefix_ = "/" ∧
      (configure (newRunner false) ["bucket", "//", "path"]).1.prefix_.data.head? =
        some '/' := by
  decide

/-! ## Names that climb out of the output directory (C13) -/

/-- C13: path mapping does no traversal sanitisation: there are a runner
and an object name for which `getPathForObject` returns a path outside the
output directory. After `configure` on the arguments `bucket`, the empty
prefix and `out`, the name `../escape` maps to `escape`, which is not
under `out`; with output directory `/srv/data` the name `../../etc/passwd`
maps to `/etc/passwd`; the names of the test stay under `path`. -/
theorem getPathForObject_escapes :
    (∃ (r : runner) (name : String),
        liesUnder r.outputDirectory (getPathForObject r name) = false) ∧
      getPathForObject (configure (newRunner false) ["bucket", "", "out"]).1 "../escape" =
        "escape" ∧
      liesUnder (configure (newRunner false) ["bucket", "", "out"]).1.outputDirectory
        (getPathForObject (configure (newRunner false) ["bucket", "", "out"]).1 "../escape") =
        false ∧
      getPathForObject (configure (newRunner false) ["bucket", "", "/srv/data"]).1
        "../../etc/passwd" = "/etc/passwd" ∧
      liesUnder "/srv/data" "/etc/passwd" = false ∧
      testObjects.map (fun o => liesUnder (testRunner false 8 1000).outputDirectory
        (getPathForObject (testRunner false 8 1000) o.Name)) = [true, true, true] := by
  refine ⟨⟨(configure (newRunner false) ["bucket", "", "out"]).1, "../escape", ?_⟩,
    ?_, ?_, ?_, ?_, ?_⟩ <;> decide

end GsDownload
